import Mathlib

/-!
Verification development for the openclaw run-lifecycle core.

This file gives a shallow embedding, in Lean 4, of the three core
mechanisms of the repository and proves the frozen claims about them:

* the gateway chat-run recovery store (`src/gateway/chat-run-recovery.ts`),
* the GTD scheduler reconciler (`extensions/gtd-core/src/review.ts`,
  scheduler part),
* the hard-stop orchestrator (`src/web/auto-reply/edit-message.ts`,
  hard-stop part).

JavaScript `Map`s become association lists that keep insertion order
(JS `Map.set` on an existing key keeps its position, which the embedding
mirrors), JS numbers become `Int` (every number appearing here is a
millisecond timestamp or a count; the code guards non-finite values with
`Number.isFinite`, which is `true` for every `Int`), and fallible or
effectful collaborators (the file system, the external cron service, the
`resume` callback, message delivery) become explicit parameters.
-/

/-- JS `String.prototype.trim()`: strip leading and trailing whitespace
(computed on the character list, so that concrete instances evaluate). -/
def jsTrim (s : String) : String :=
  String.mk (((s.data.dropWhile Char.isWhitespace).reverse.dropWhile Char.isWhitespace).reverse)

/-- JS `String.prototype.toLowerCase()` (character-wise). -/
def jsToLower (s : String) : String :=
  String.mk (s.data.map Char.toLower)

/-- JS `String.prototype.startsWith` (computed on character lists). -/
def jsStartsWith (s pre : String) : Bool :=
  pre.data.isPrefixOf s.data

namespace Recovery

/-- The `RunRecoverySource` enum of `chat-run-recovery.ts`. -/
inductive RunRecoverySource where
  | chat_send
  | whatsapp_auto_reply
deriving DecidableEq

/-- A persisted in-flight run entry (`PersistedGatewayChatRun`). -/
structure PersistedGatewayChatRun where
  runId : String
  sessionKey : String
  source : RunRecoverySource
  accountId : Option String
  startedAtMs : Int
  updatedAtMs : Int
  recoveryAttempts : Option Int
  lastRecoveryAtMs : Option Int
deriving DecidableEq

/-- The in-memory store: a JS `Map` keyed by run id, as an insertion-ordered
association list. -/
abbrev RunStore : Type := List (String × PersistedGatewayChatRun)

/-- JS `Map.get`. -/
def mapGet (m : List (String × α)) (k : String) : Option α :=
  (m.find? (fun e => e.1 == k)).map (fun e => e.2)

/-- JS `Map.set`: replaces in place when the key exists (keeping insertion
order), appends otherwise. -/
def mapSet : List (String × α) → String → α → List (String × α)
  | [], k, v => [(k, v)]
  | e :: rest, k, v => if e.1 == k then (k, v) :: rest else e :: mapSet rest k v

/-- JS `Map.delete`. -/
def mapDelete (m : List (String × α)) (k : String) : List (String × α) :=
  m.filter (fun e => e.1 != k)

/-- `MAX_RECOVERY_ATTEMPTS` in `chat-run-recovery.ts`. -/
def MAX_RECOVERY_ATTEMPTS : Int := 3

/-- `MAX_RUN_AGE_MS` in `chat-run-recovery.ts` (2 hours). -/
def MAX_RUN_AGE_MS : Int := 2 * 60 * 60000

/-- The runtime view of `markRunInFlight`'s parameter object: `source` is
typed as required in TS, but the function guards a falsy runtime value, so
the embedding carries it as an `Option`. -/
structure MarkRunParams where
  runId : String
  sessionKey : String
  source : Option RunRecoverySource
  accountId : Option String

/-- `markRunInFlight`, with the load/save of the durable map factored into
an explicit `store` argument and `Date.now()` passed as `now`. -/
def markRunInFlight (store : RunStore) (p : MarkRunParams) (now : Int) : RunStore :=
  let runId := jsTrim p.runId
  let sessionKey := jsTrim p.sessionKey
  let accountId := p.accountId.map jsTrim
  match p.source with
  | none => store
  | some source =>
      if runId == "" || sessionKey == "" then store
      else
        let existing := mapGet store runId
        mapSet store runId
          { runId := runId
            sessionKey := sessionKey
            source := source
            accountId := accountId
            startedAtMs := ((existing.map fun e => e.startedAtMs).getD now)
            updatedAtMs := now
            recoveryAttempts := existing.bind fun e => e.recoveryAttempts
            lastRecoveryAtMs := existing.bind fun e => e.lastRecoveryAtMs }

/-- A parsed JSON value, the result type of `loadJsonFile`.  Numbers are
timestamps/counts and are carried as `Int`. -/
inductive Json where
  | null
  | bool (b : Bool)
  | num (v : Int)
  | str (s : String)
  | arr (items : List Json)
  | obj (fields : List (String × Json))

/-- JS truthiness test (`!raw`), restricted to JSON values. -/
def jsFalsy : Json → Bool
  | .null => true
  | .bool b => !b
  | .num v => v == 0
  | .str s => s == ""
  | .arr _ => false
  | .obj _ => false

/-- `typeof x === "object"` for a JSON value (arrays and `null` included). -/
def jsTypeofObject : Json → Bool
  | .obj _ => true
  | .arr _ => true
  | .null => true
  | _ => false

/-- Object property read; `JSON.parse` keeps the last duplicate key, so the
last binding wins. -/
def jsField (j : Json) (key : String) : Option Json :=
  match j with
  | .obj fields => ((fields.reverse).find? (fun e => e.1 == key)).map (fun e => e.2)
  | _ => none

/-- `Object.entries` on a JSON value of object type (arrays enumerate with
stringified indices, as in JS). -/
def jsEntries : Json → List (String × Json)
  | .obj fields => fields
  | .arr items => (items.enum).map (fun e => (toString e.1, e.2))
  | _ => []

/-- The per-entry normalization inside `loadPersistedGatewayChatRuns`:
returns `none` exactly when the entry is skipped by a `continue`. -/
def loadRunEntry (entry : Json) (now : Int) : Option PersistedGatewayChatRun :=
  if jsFalsy entry || !jsTypeofObject entry then none
  else
    match jsField entry "runId" with
    | some (.str runId) =>
        if runId == "" then none
        else
          match jsField entry "sessionKey" with
          | some (.str sessionKey) =>
              if sessionKey == "" then none
              else
                let source :=
                  match jsField entry "source" with
                  | some (.str "chat_send") => RunRecoverySource.chat_send
                  | some (.str "whatsapp_auto_reply") => RunRecoverySource.whatsapp_auto_reply
                  | _ => RunRecoverySource.chat_send
                let accountId :=
                  match jsField entry "accountId" with
                  | some (.str a) => if jsTrim a == "" then none else some (jsTrim a)
                  | _ => none
                let startedAtMs :=
                  match jsField entry "startedAtMs" with
                  | some (.num v) => v
                  | _ => now
                let updatedAtMs :=
                  match jsField entry "updatedAtMs" with
                  | some (.num v) => v
                  | _ => now
                let recoveryAttempts :=
                  match jsField entry "recoveryAttempts" with
                  | some (.num v) => some (max 0 v)
                  | _ => none
                let lastRecoveryAtMs :=
                  match jsField entry "lastRecoveryAtMs" with
                  | some (.num v) => some v
                  | _ => none
                some
                  { runId := runId
                    sessionKey := sessionKey
                    source := source
                    accountId := accountId
                    startedAtMs := startedAtMs
                    updatedAtMs := updatedAtMs
                    recoveryAttempts := recoveryAttempts
                    lastRecoveryAtMs := lastRecoveryAtMs }
          | _ => none
    | _ => none

/-- `loadPersistedGatewayChatRuns`: `raw` is the `loadJsonFile` result
(`none` models a missing or unparseable file). -/
def loadPersistedGatewayChatRuns (raw : Option Json) (now : Int) : RunStore :=
  match raw with
  | none => []
  | some j =>
      if jsFalsy j || !jsTypeofObject j then []
      else
        match jsField j "runs" with
        | none => []
        | some runs =>
            if jsFalsy runs || !jsTypeofObject runs then []
            else
              (jsEntries runs).foldl
                (fun out e =>
                  match loadRunEntry e.2 now with
                  | none => out
                  | some run => mapSet out e.1 run)
                []

/-- A transcript message as inspected by the recovery path.  `content` is
`some blocks` when the raw content is an array; each block is the block's
`type` field when the block is an object carrying a string `type`, and
`none` otherwise (non-object blocks and objects without a string `type`
are observationally identical in `containsToolUseBlock`). -/
structure TranscriptMsg where
  role : String
  stopReason : Option String
  content : Option (List (Option String))
deriving DecidableEq

/-- `containsToolUseBlock`. -/
def containsToolUseBlock : Option (List (Option String)) → Bool
  | none => false
  | some blocks =>
      blocks.any fun b =>
        match b with
        | none => false
        | some t => t == "toolUse" || t == "toolCall" || t == "functionCall"

/-- The stop-reason normalization at the top of
`isCompletedTerminalAssistant`: trim and lowercase a string stop reason,
empty for a missing (or non-string) one. -/
def stopReasonNorm (msg : TranscriptMsg) : String :=
  match msg.stopReason with
  | some s => jsToLower (jsTrim s)
  | none => ""

/-- `isCompletedTerminalAssistant`. -/
def isCompletedTerminalAssistant (msg : TranscriptMsg) : Bool :=
  let stopReason := stopReasonNorm msg
  if stopReason == "stop" || stopReason == "end_turn" || stopReason == "endturn" then true
  else if stopReason == "error" || stopReason == "aborted" then true
  else if stopReason == "tooluse" || stopReason == "tool_use" || stopReason == "tool_calls" then
    false
  else !containsToolUseBlock msg.content

/-- The session-store lookup consumed by `shouldResumeFromTranscript`:
`resolved` is true when both a session id and a store path resolve, and
`messages` is the transcript read for the session. -/
structure SessionLookup where
  resolved : Bool
  messages : List TranscriptMsg

/-- `shouldResumeFromTranscript`, with the session store and transcript
reader factored into the `SessionLookup` argument. -/
def shouldResumeFromTranscript (s : SessionLookup) : Bool :=
  if !s.resolved then false
  else
    match s.messages.getLast? with
    | none => false
    | some last =>
        if last.role == "user" || last.role == "toolResult" then true
        else if last.role != "assistant" then false
        else !isCompletedTerminalAssistant last

/-- Modelled from the spec and claim C4's words (not from the source): an
assistant message is a completed terminal turn when its stop reason is one
of `stop`/`end_turn`/`endturn`/`error`/`aborted`; reasons
`tool_use`/`tool_calls` are non-terminal; **otherwise** terminality is
decided by the absence of any tool-use/tool-call/function-call block.
The claim's list of non-terminal reasons omits `tooluse`. -/
def claimTerminalAssistant (msg : TranscriptMsg) : Bool :=
  let stopReason := stopReasonNorm msg
  if stopReason == "stop" || stopReason == "end_turn" || stopReason == "endturn"
      || stopReason == "error" || stopReason == "aborted" then true
  else if stopReason == "tool_use" || stopReason == "tool_calls" then false
  else !containsToolUseBlock msg.content

/-- Modelled from claim C4's words: the resumption decision built on
`claimTerminalAssistant`. -/
def claimShouldResume (s : SessionLookup) : Bool :=
  if !s.resolved then false
  else
    match s.messages.getLast? with
    | none => false
    | some last =>
        if last.role == "user" || last.role == "toolResult" then true
        else if last.role != "assistant" then false
        else !claimTerminalAssistant last

/-- Modelled from claim C4's words, amended by adding `tooluse` to the
non-terminal stop reasons: an assistant message is a completed terminal
turn when its normalized stop reason is terminal, or when it is neither
terminal nor non-terminal and the message content carries no
tool-use/tool-call/function-call block. -/
def TerminalSpecAmended (m : TranscriptMsg) : Prop :=
  stopReasonNorm m ∈ (["stop", "end_turn", "endturn", "error", "aborted"] : List String)
  ∨ (stopReasonNorm m ∉ (["stop", "end_turn", "endturn", "error", "aborted"] : List String)
      ∧ stopReasonNorm m ∉ (["tooluse", "tool_use", "tool_calls"] : List String)
      ∧ containsToolUseBlock m.content = false)

/-- The amended resumption specification of claim C4: resume exactly when
the session resolves, a last message exists, and it is a `user` or
`toolResult` message or a non-terminal assistant message. -/
def ResumeSpecAmended (s : SessionLookup) : Prop :=
  s.resolved = true ∧ ∃ last, s.messages.getLast? = some last ∧
    (last.role = "user" ∨ last.role = "toolResult" ∨
      (last.role = "assistant" ∧ ¬ TerminalSpecAmended last))

/-- The outcome of one `recoverInterruptedRuns` pass: the final store (the
single rewrite at the end of the batch) and the run ids for which the
`resume` callback was invoked, in invocation order. -/
structure RecoverOutcome where
  runs : RunStore
  resumed : List String
deriving DecidableEq

/-- The source-filter skip test at the top of the `recoverInterruptedRuns`
loop body (`params.source && entry.source !== params.source`). -/
def srcSkip (fsrc : Option RunRecoverySource) (src : RunRecoverySource) : Bool :=
  match fsrc with
  | some s => src != s
  | none => false

/-- The account-filter skip test
(`params.accountId && entry.accountId !== params.accountId`; an empty
filter string is falsy and filters nothing). -/
def acctSkip (facct : Option String) (acc : Option String) : Bool :=
  match facct with
  | some a => a != "" && acc != some a
  | none => false

/-- One iteration of the `recoverInterruptedRuns` loop body for the entry
`(runId, entry)`.  `lookup` is the session store + transcript reader and
`resumeFn` the awaited result of the `resume` callback (`false` also models
a rejected promise, which the `.catch` turns into `false`). -/
def recoverStep (now : Int) (fsrc : Option RunRecoverySource) (facct : Option String)
    (lookup : String → SessionLookup)
    (resumeFn : PersistedGatewayChatRun → Bool)
    (acc : RecoverOutcome) (runId : String) (entry : PersistedGatewayChatRun) :
    RecoverOutcome :=
  if srcSkip fsrc entry.source then acc
  else if acctSkip facct entry.accountId then acc
  else
    let ageMs := now - entry.startedAtMs
    let attempts := (entry.recoveryAttempts).getD 0
    if ageMs > MAX_RUN_AGE_MS || attempts ≥ MAX_RECOVERY_ATTEMPTS then
      { acc with runs := mapDelete acc.runs runId }
    else if !shouldResumeFromTranscript (lookup entry.sessionKey) then
      { acc with runs := mapDelete acc.runs runId }
    else
      let entry' :=
        { entry with
            recoveryAttempts := some (attempts + 1)
            lastRecoveryAtMs := some now
            updatedAtMs := now }
      let _ := resumeFn entry'
      { runs := mapSet acc.runs runId entry', resumed := acc.resumed ++ [runId] }

/-- `recoverInterruptedRuns`: iterates the entries of the loaded store in
insertion order (the JS `Map` iterator visits the original keys; the body
only ever deletes the entry it is visiting or rewrites its value, so the
iteration sequence is the initial entry list). -/
def recoverInterruptedRuns (now : Int) (store : RunStore)
    (fsrc : Option RunRecoverySource) (facct : Option String)
    (lookup : String → SessionLookup)
    (resumeFn : PersistedGatewayChatRun → Bool) : RecoverOutcome :=
  store.foldl (fun acc e => recoverStep now fsrc facct lookup resumeFn acc e.1 e.2)
    { runs := store, resumed := [] }

end Recovery

namespace Gtd

/-- `DAY_MS` in the scheduler (`review.ts`). -/
def DAY_MS : Int := 24 * 60 * 60 * 1000

/-- `JOB_NAMESPACE`. -/
def JOB_NAMESPACE : String := "gtd"

/-- A `SchedulerJobRef` in GTD state: binding of an internal job key to an
external cron job id. -/
structure SchedulerJobRef where
  key : String
  cronJobId : String
  createdAtMs : Int
  updatedAtMs : Int
deriving DecidableEq

/-- A `lastProcessedRuns` marker in GTD scheduler state. -/
structure RunMarker where
  key : String
  runAtMs : Int
  createdAtMs : Int
  updatedAtMs : Int
deriving DecidableEq

/-- A normalized `CronRunEntry` as returned by `fetchLatestRun`. -/
structure CronRunEntry where
  ts : Option Int
  runAtMs : Option Int
  status : Option String
deriving DecidableEq

/-- `getLastProcessedRunAt` (the marker's `runAtMs` is always a number in
the embedding, so the `typeof` guard collapses). -/
def getLastProcessedRunAt (markers : List RunMarker) (key : String) : Int :=
  match markers.find? (fun m => m.key == key) with
  | some m => m.runAtMs
  | none => 0

/-- `setLastProcessedRunAt`: mutates the first marker with the key, or
pushes a fresh one. -/
def setLastProcessedRunAt (markers : List RunMarker) (key : String)
    (runAtMs now : Int) : List RunMarker :=
  match markers with
  | [] => [{ key := key, runAtMs := runAtMs, createdAtMs := now, updatedAtMs := now }]
  | m :: rest =>
      if m.key == key then { m with runAtMs := runAtMs, updatedAtMs := now } :: rest
      else m :: setLastProcessedRunAt rest key runAtMs now

/-- The effective run timestamp computed at the top of the
`processTriggeredRuns` loop: `runAtMs ?? ts ?? 0` (field absence models the
`typeof` guards). -/
def effectiveRunAt (e : CronRunEntry) : Int :=
  match e.runAtMs with
  | some v => v
  | none =>
      match e.ts with
      | some v => v
      | none => 0

/-- The scheduler-relevant slice of `GtdState` for run processing.  `W`
stands for the rest of the state; the job effect handlers invoked by
`processJobRun` (reviews, calendar sync, waiting follow-ups) mutate only
that rest and never touch `scheduler.jobs` or
`scheduler.lastProcessedRuns`, which the field split makes explicit. -/
structure SchedState (W : Type) where
  jobs : List SchedulerJobRef
  lastProcessedRuns : List RunMarker
  world : W

/-- A handler invocation recorded by the embedding of
`processTriggeredRuns`: the job key, the cron job id it was fetched for,
and the effective run timestamp. -/
structure Invocation where
  key : String
  cronJobId : String
  runAtMs : Int
deriving DecidableEq

/-- The loop body of `processTriggeredRuns` for one tracked job ref.
`fetch` models `fetchLatestRun` against the external cron service and
`handler` models `processJobRun` (which returns a summary string and
mutates only the non-scheduler state). -/
def processRunStep (fetch : String → Option CronRunEntry)
    (handler : String → W → W × String) (now : Int)
    (acc : SchedState W × Bool × List Invocation) (ref : SchedulerJobRef) :
    SchedState W × Bool × List Invocation :=
  match fetch ref.cronJobId with
  | none => acc
  | some latest =>
      let runAtMs := effectiveRunAt latest
      if runAtMs == 0 then acc
      else
        let lastSeen := getLastProcessedRunAt acc.1.lastProcessedRuns ref.key
        if runAtMs ≤ lastSeen then acc
        else
          let ok := latest.status == some "ok"
          let world' := if ok then (handler ref.key acc.1.world).1 else acc.1.world
          let invoked' :=
            if ok then
              acc.2.2 ++ [{ key := ref.key, cronJobId := ref.cronJobId, runAtMs := runAtMs }]
            else acc.2.2
          ({ acc.1 with
              world := world'
              lastProcessedRuns :=
                setLastProcessedRunAt acc.1.lastProcessedRuns ref.key runAtMs now },
            true, invoked')

/-- `processTriggeredRuns`: folds the loop body over the tracked job refs;
returns the final state, the `changed` flag, and the handler invocations
(in order). -/
def processTriggeredRuns (st : SchedState W)
    (fetch : String → Option CronRunEntry)
    (handler : String → W → W × String) (now : Int) :
    SchedState W × Bool × List Invocation :=
  st.jobs.foldl (processRunStep fetch handler now) (st, false, [])

/-- A waiting-for item's delivery target. -/
structure DeliveryTarget where
  channel : String
  toAddr : String
  accountId : Option String
  threadId : Option String
  sessionKey : Option String
deriving DecidableEq

/-- A `WaitingForItem` of GTD state. -/
structure WaitingItem where
  id : String
  who : String
  what : String
  sinceMs : Int
  followupAtMs : Int
  followupCadenceDays : Int
  deliveryTarget : Option DeliveryTarget
  status : String
  lastFollowupAtMs : Option Int
  createdAtMs : Int
  updatedAtMs : Int
deriving DecidableEq

/-- An `InboxItem` as produced by `capture`. -/
structure InboxItem where
  id : String
  rawText : String
  source : String
  capturedAtMs : Int
  createdAtMs : Int
  updatedAtMs : Int
  sessionKey : Option String
  status : String
deriving DecidableEq

/-- A `CommitmentItem` as produced by `addCommitment`. -/
structure CommitmentItem where
  id : String
  requestRef : String
  decision : String
  nextUpdateAtMs : Int
  owner : String
  sessionKey : Option String
  createdAtMs : Int
  updatedAtMs : Int
deriving DecidableEq

/-- The slice of `GtdState` read and mutated by `runWaitingFollowup`. -/
structure WState where
  waitingFor : List WaitingItem
  inboxItems : List InboxItem
  commitments : List CommitmentItem
  updatedAtMs : Int
deriving DecidableEq

/-- `sanitizeText` from the GTD engine: whitespace runs collapse to one
space, then trim. -/
def sanitizeText (text : String) : String :=
  jsTrim (String.mk (collapse text.data false))
where
  collapse : List Char → Bool → List Char
  | [], _ => []
  | c :: rest, inRun =>
      if c.isWhitespace then
        if inRun then collapse rest true else ' ' :: collapse rest true
      else c :: collapse rest false

/-- `capture` from the GTD engine (the generated ULID is passed in as
`newId`). -/
def capture (st : WState) (rawText source : String) (sessionKey : Option String)
    (now : Int) (newId : String) : WState :=
  { st with
      inboxItems :=
        st.inboxItems ++
          [{ id := newId
             rawText := jsTrim rawText
             source := source
             capturedAtMs := now
             createdAtMs := now
             updatedAtMs := now
             sessionKey := sessionKey
             status := "captured" }]
      updatedAtMs := now }

/-- `addCommitment` from the GTD engine (the generated ULID is passed in as
`newId`). -/
def addCommitment (st : WState) (requestRef decision : String)
    (nextUpdateAtMs : Int) (owner : String) (sessionKey : Option String)
    (now : Int) (newId : String) : WState :=
  { st with
      commitments :=
        st.commitments ++
          [{ id := newId
             requestRef := sanitizeText requestRef
             decision := decision
             nextUpdateAtMs := nextUpdateAtMs
             owner := sanitizeText owner
             sessionKey := sessionKey
             createdAtMs := now
             updatedAtMs := now }] }

/-- `normalizeAllowlistKey` from `schema.ts`: trim, lowercase, strip all
whitespace. -/
def normalizeAllowlistKey (input : String) : String :=
  String.mk ((jsToLower (jsTrim input)).data.filter (fun c => !c.isWhitespace))

/-- `buildAutoSendAllowKey`. -/
def buildAutoSendAllowKey (channel : String) (accountId : Option String)
    (toAddr : String) : String :=
  normalizeAllowlistKey (channel ++ ":" ++ accountId.getD "" ++ ":" ++ toAddr)

/-- The `routeReply` result consumed by `runWaitingFollowup`. -/
structure SendResult where
  ok : Bool
  error : Option String
deriving DecidableEq

/-- Replace the first list element satisfying `p` by `f` of it (JS
`Array.find` hands back the element and the code mutates it in place). -/
def updateFirst (p : α → Bool) (f : α → α) : List α → List α
  | [] => []
  | x :: rest => if p x then f x :: rest else x :: updateFirst p f rest

/-- The predicate of the `waitingFor.find` at the top of
`runWaitingFollowup`. -/
def waitingMatch (waitingId : String) (item : WaitingItem) : Bool :=
  item.id == waitingId && item.status == "active"

/-- `runWaitingFollowup`, with `Date.now()` passed as `now`, the allowlist
taken from the resolved plugin config, the `routeReply` outcome passed as
`send` (consumed only when a send is attempted), and the two ULIDs that a
draft/error path may generate passed as `id1`/`id2`.  Returns the new
state, the summary string, and whether `routeReply` was invoked. -/
def runWaitingFollowup (st : WState) (agentId : String)
    (allowlist : List String) (waitingId : String) (now : Int)
    (send : SendResult) (id1 id2 : String) : WState × String × Bool :=
  match st.waitingFor.find? (waitingMatch waitingId) with
  | none => (st, "waiting:" ++ waitingId ++ " already resolved", false)
  | some waiting =>
      let nextFollowupAt := now + waiting.followupCadenceDays * DAY_MS
      let target := waiting.deliveryTarget
      let followupText := "Follow-up voor " ++ waiting.who ++ ": " ++ waiting.what
      if (match target with
          | none => true
          | some t => jsTrim t.channel == "" || jsTrim t.toAddr == "") then
        let st := capture st ("[draft_confirm] " ++ followupText)
          "scheduler.waiting.draft_confirm" (target.bind fun t => t.sessionKey) now id1
        let st := addCommitment st waiting.id "needs_info" (now + 60 * 60 * 1000)
          agentId (target.bind fun t => t.sessionKey) now id2
        let st :=
          { st with
              waitingFor :=
                updateFirst (waitingMatch waitingId)
                  (fun w => { w with followupAtMs := nextFollowupAt, updatedAtMs := now })
                  st.waitingFor }
        (st, "waiting:" ++ waiting.id ++ " draft_confirm (missing delivery target)", false)
      else
        match target with
        | none => (st, "", false)
        | some t =>
            let allowKey := buildAutoSendAllowKey t.channel t.accountId t.toAddr
            if !(allowlist.contains allowKey) then
              let st := capture st
                ("[draft_confirm] " ++ followupText ++ " -> " ++ t.channel ++ ":"
                  ++ t.accountId.getD "" ++ ":" ++ t.toAddr)
                "scheduler.waiting.draft_confirm" t.sessionKey now id1
              let st := addCommitment st waiting.id "deferred" (now + 60 * 60 * 1000)
                agentId t.sessionKey now id2
              let st :=
                { st with
                    waitingFor :=
                      updateFirst (waitingMatch waitingId)
                        (fun w => { w with followupAtMs := nextFollowupAt, updatedAtMs := now })
                        st.waitingFor }
              (st, "waiting:" ++ waiting.id ++ " draft_confirm (target not allowlisted)", false)
            else if !send.ok then
              let st := capture st
                ("[followup_send_error] " ++ followupText ++ " error="
                  ++ (send.error).getD "unknown")
                "scheduler.waiting.send_error" t.sessionKey now id1
              let st :=
                { st with
                    waitingFor :=
                      updateFirst (waitingMatch waitingId)
                        (fun w =>
                          { w with followupAtMs := now + 6 * 60 * 60 * 1000, updatedAtMs := now })
                        st.waitingFor }
              (st, "waiting:" ++ waiting.id ++ " send_error", true)
            else
              let st :=
                { st with
                    waitingFor :=
                      updateFirst (waitingMatch waitingId)
                        (fun w =>
                          { w with
                              lastFollowupAtMs := some now
                              followupAtMs := nextFollowupAt
                              updatedAtMs := now })
                        st.waitingFor }
              (st, "waiting:" ++ waiting.id ++ " auto_send", true)

end Gtd

namespace HardStop

/-- Modelled from the spec: a Process Registry entry (`ProcessSession`,
`bash-process-registry.ts` is not part of the sources): an OS process
spawned on behalf of a session, with pid, scope key and liveness flag.
`eid` identifies the entry object (the registry hands out references to
entry objects and `markExited` is called with such a reference); `pid` is
`none` when the stored pid is not a number. -/
structure ProcEntry where
  eid : Nat
  pid : Option Int
  scopeKey : String
  live : Bool
deriving DecidableEq

/-- The Process Registry state. -/
abbrev Registry := List ProcEntry

/-- The pid guard used in both phases of `hardStopProcessScope`
(`typeof session.pid === "number" && session.pid > 0`). -/
def hasValidPid (e : ProcEntry) : Bool :=
  match e.pid with
  | some p => p > 0
  | none => false

/-- Modelled from the spec: `listRunningSessions` lists the live entries. -/
def listRunningSessions (reg : Registry) : List ProcEntry :=
  reg.filter (fun e => e.live)

/-- `activeScopedSessions` from `edit-message.ts` (hard-stop part). -/
def activeScopedSessions (scopeKey : String) (reg : Registry) : List ProcEntry :=
  (listRunningSessions reg).filter (fun s => s.scopeKey == scopeKey)

/-- Modelled from the spec: `markExited` clears the liveness flag of the
given registry entry. -/
def markExited (reg : Registry) (eid : Nat) : Registry :=
  reg.map (fun e => if e.eid == eid then { e with live := false } else e)

/-- Observable actions of the hard-stop path, in program order:
`sigterm` is the phase-1 `process.kill(pid, "SIGTERM")` attempt,
`cancelScope` the supervisor's cooperative cancel, `escalationWait` the
`sleep(escalationMs)`, `forceKill` the phase-2 `killProcessTree(pid,
{graceMs: 0})`, and `exited` the phase-2 `markExited`. -/
inductive Event where
  | sigterm (pid : Int)
  | cancelScope (scopeKey : String) (reason : String)
  | escalationWait (ms : Int)
  | forceKill (pid : Int)
  | exited (eid : Nat)
deriving DecidableEq

/-- `HardStopProcessSummary`. -/
structure HardStopProcessSummary where
  scopeKey : String
  observed : Nat
  sigtermRequested : Nat
  forceKilled : Nat
  remaining : Nat
deriving DecidableEq

/-- `hardStopProcessScope`.  The `sleep(escalationMs)` is the only
suspension point; `envKill` is the registry as re-read after the wait
(concurrent activity during the wait — processes exiting on the SIGTERM —
is modelled as an arbitrary function of the registry; the claims
hypothesize that it only clears liveness flags).  Returns the summary, the
registry after phase 2, and the emitted event trace. -/
def hardStopProcessScope (reg : Registry) (scopeKey : String)
    (escalationMs : Int) (envKill : Registry → Registry) :
    HardStopProcessSummary × Registry × List Event :=
  let observedSessions := activeScopedSessions scopeKey reg
  let sigtermTargets := observedSessions.filter hasValidPid
  let phase1 : List Event :=
    (sigtermTargets.map fun s => Event.sigterm (s.pid.getD 0))
      ++ [Event.cancelScope scopeKey "manual-cancel", Event.escalationWait escalationMs]
  let reg2 := envKill reg
  let remainingSessions := activeScopedSessions scopeKey reg2
  let phase2 : List Event :=
    remainingSessions.flatMap fun s =>
      (if hasValidPid s then [Event.forceKill (s.pid.getD 0)] else []) ++ [Event.exited s.eid]
  let regFinal := remainingSessions.foldl (fun r s => markExited r s.eid) reg2
  ({ scopeKey := scopeKey
     observed := observedSessions.length
     sigtermRequested := sigtermTargets.length
     forceKilled := (remainingSessions.filter hasValidPid).length
     remaining := remainingSessions.length },
    regFinal, phase1 ++ phase2)

/-- Modelled from the spec: a `DescendantRun` of the Sub-agent Registry
(`subagent-registry.ts` is not part of the sources): `endedAt` is set
exactly once, at termination; runs with `endedAt` unset are active. -/
structure DescendantRun where
  runId : String
  childSessionKey : String
  requesterSessionKey : String
  createdAt : Int
  endedAt : Option Int
deriving DecidableEq

/-- The Sub-agent Registry state. -/
abbrev SubRegistry := List DescendantRun

/-- Modelled from the spec: `listDescendantRunsForRequester` filters by the
requester session key. -/
def listDescendantRunsForRequester (sub : SubRegistry) (key : String) :
    List DescendantRun :=
  sub.filter (fun e => e.requesterSessionKey == key)

/-- Modelled from the spec: `markSubagentRunTerminated` sets `endedAt` on
the run with the given id when it is still active, and reports how many
runs it terminated (1 on success, 0 when the run is unknown or already
ended). -/
def markSubagentRunTerminated (sub : SubRegistry) (runId : String) (now : Int) :
    SubRegistry × Nat :=
  if sub.any (fun e => e.runId == runId && e.endedAt == none) then
    (Gtd.updateFirst (fun e => e.runId == runId && e.endedAt == none)
      (fun e => { e with endedAt := some now }) sub, 1)
  else (sub, 0)

/-- `ClearSessionQueueResult` counts. -/
structure QueueResult where
  followupCleared : Nat
  laneCleared : Nat
deriving DecidableEq

/-- `HardStopResult` (the sub-agent process summary is flattened into the
four `subagent*` count fields; `durationMs`, a wall-clock reading, is
omitted). -/
structure HardStopResult where
  sessionKey : String
  sessionId : Option String
  abortedRun : Bool
  queue : QueueResult
  rootProcesses : HardStopProcessSummary
  subagentObserved : Nat
  subagentSigtermRequested : Nat
  subagentForceKilled : Nat
  subagentRemaining : Nat
  subagentRunsTerminated : Nat
  subagentSessionsHandled : Nat
  subagentRunsAborted : Nat
deriving DecidableEq

/-- `Array.from(new Set(...))`: first-occurrence deduplication. -/
def dedup : List String → List String
  | [] => []
  | x :: rest => x :: (dedup (rest.filter (fun y => y != x)))
termination_by l => l.length
decreasing_by
  simp only [List.length_cons]
  exact Nat.lt_succ_of_le (List.length_filter_le _ _)

/-- The deduplicated, trimmed, non-empty child session keys of a session's
descendants, as computed inside `hardStopSessionExecution`. -/
def childKeysOf (sub : SubRegistry) (sessionKey : String) : List String :=
  dedup (((listDescendantRunsForRequester sub sessionKey).map
    (fun e => jsTrim e.childSessionKey)).filter (fun s => s ≠ ""))

/-- The per-child-session loop of `hardStopSessionExecution`: clears the
child's queues, aborts its embedded run, and runs process-scope
termination, accumulating `(registry, aborted, observed, sigterm,
forceKilled, remaining, trace)`.  `envKill i` is the registry environment
at the i-th suspension (the root scope used index 0). -/
def childLoop (resolveSessionId : String → Option String)
    (abortRun : String → Bool) (escalationMs : Int)
    (envKill : Nat → Registry → Registry) :
    List String → Nat → Registry →
    Registry × Nat × Nat × Nat × Nat × Nat × List Event
  | [], _, reg => (reg, 0, 0, 0, 0, 0, [])
  | k :: rest, i, reg =>
      let childSessionId := resolveSessionId k
      let aborted :=
        match childSessionId with
        | some cid => if abortRun cid then 1 else 0
        | none => 0
      let scopeRes := hardStopProcessScope reg k escalationMs (envKill i)
      let cp := scopeRes.1
      let rest' := childLoop resolveSessionId abortRun escalationMs envKill rest (i + 1) scopeRes.2.1
      (rest'.1, aborted + rest'.2.1, cp.observed + rest'.2.2.1,
        cp.sigtermRequested + rest'.2.2.2.1, cp.forceKilled + rest'.2.2.2.2.1,
        cp.remaining + rest'.2.2.2.2.2.1, scopeRes.2.2 ++ rest'.2.2.2.2.2.2)

/-- `hardStopSessionExecution`, with the collaborators passed as functions:
`resolveSessionId` reads the session store (`resolveSessionIdForKey`),
`clearQueues` is the reply-queue clearer, `abortRun` the embedded-run abort
hook, and `envKill i` the registry environment at the i-th escalation
wait.  Returns the result, the final process registry, the final sub-agent
registry, and the event trace. -/
def hardStopSessionExecution (reg : Registry) (sub : SubRegistry)
    (resolveSessionId : String → Option String)
    (clearQueues : String → Option String → QueueResult)
    (abortRun : String → Bool)
    (sessionKeyRaw : String) (sessionIdParam : Option String)
    (escalationMs : Int) (now : Int)
    (envKill : Nat → Registry → Registry) :
    HardStopResult × Registry × SubRegistry × List Event :=
  let sessionKey := jsTrim sessionKeyRaw
  let sessionId :=
    match sessionIdParam with
    | some s => some s
    | none => resolveSessionId sessionKey
  let queue := clearQueues sessionKey sessionId
  let abortedRun :=
    match sessionId with
    | some sid => abortRun sid
    | none => false
  let rootRes := hardStopProcessScope reg sessionKey escalationMs (envKill 0)
  let rootProcesses := rootRes.1
  let reg1 := rootRes.2.1
  let trace1 := rootRes.2.2
  let descendants := listDescendantRunsForRequester sub sessionKey
  let childSessionKeys := childKeysOf sub sessionKey
  let subRes :=
    descendants.foldl
      (fun (acc : SubRegistry × Nat) entry =>
        if entry.endedAt.isSome then acc
        else
          let m := markSubagentRunTerminated acc.1 entry.runId now
          (m.1, acc.2 + m.2))
      (sub, 0)
  let sub1 := subRes.1
  let subagentRunsTerminated := subRes.2
  let childRes := childLoop resolveSessionId abortRun escalationMs envKill childSessionKeys 1 reg1
  let regF := childRes.1
  let subagentRunsAborted := childRes.2.1
  let subagentObserved := childRes.2.2.1
  let subagentSigtermRequested := childRes.2.2.2.1
  let subagentForceKilled := childRes.2.2.2.2.1
  let subagentRemaining := childRes.2.2.2.2.2.1
  let childTrace := childRes.2.2.2.2.2.2
  ({ sessionKey := sessionKey
     sessionId := sessionId
     abortedRun := abortedRun
     queue := queue
     rootProcesses := rootProcesses
     subagentObserved := subagentObserved
     subagentSigtermRequested := subagentSigtermRequested
     subagentForceKilled := subagentForceKilled
     subagentRemaining := subagentRemaining
     subagentRunsTerminated := subagentRunsTerminated
     subagentSessionsHandled := childSessionKeys.length
     subagentRunsAborted := subagentRunsAborted },
    regF, sub1, trace1 ++ childTrace)

/-- Pointwise registry evolution producible by concurrent activity during a
wait: same entries (identity, pid, scope), liveness flags only ever
cleared (processes may exit; nothing is spawned or revived). -/
def Shrinks (a b : ProcEntry) : Prop :=
  b.eid = a.eid ∧ b.pid = a.pid ∧ b.scopeKey = a.scopeKey ∧ (b.live = true → a.live = true)

/-- A registry evolved from another by only clearing liveness flags. -/
def RegShrinks (r r' : Registry) : Prop :=
  List.Forall₂ Shrinks r r'

/-- A well-behaved wait-time environment: it only lets processes exit. -/
def EnvKillOnly (f : Registry → Registry) : Prop :=
  ∀ reg, RegShrinks reg (f reg)

/-- The number of live registry entries whose scope key is in `scopes`. -/
def liveCountIn (scopes : List String) (reg : Registry) : Nat :=
  reg.countP (fun e => e.live && scopes.contains e.scopeKey)

/-- The number of live registry entries whose scope key satisfies `q`
(predicate form of `liveCountIn`, used by the counting lemmas). -/
def cntLive (q : String → Bool) (reg : Registry) : Nat :=
  reg.countP (fun e => e.live && q e.scopeKey)

end HardStop

namespace Gtd

/-- A cron job schedule, as carried in the desired-job payloads.  The `at`
kind carries the firing time in milliseconds; the source renders it as
`new Date(atMs).toISOString()`, an injective rendering, so schedule
equality is unaffected. -/
inductive CronSchedule where
  | cronExpr (expr : String) (tz : String)
  | every (everyMs : Int) (anchorMs : Int)
  | atTime (atMs : Int)
deriving DecidableEq

/-- The fixed `agentTurn` payload of `buildBaseCronJob`. -/
structure CronPayload where
  kind : String
  message : String
  deliver : Bool
deriving DecidableEq

/-- The `delivery` field of a cron job. -/
structure CronDelivery where
  mode : String
deriving DecidableEq

/-- The eight job fields compared by `jobMatchesDesired` (the source
compares `JSON.stringify` of records built with a fixed field order, which
coincides with structural equality of this shape). -/
structure CronJobSpec where
  name : String
  enabled : Bool
  deleteAfterRun : Bool
  schedule : CronSchedule
  sessionTarget : String
  wakeMode : String
  payload : CronPayload
  delivery : CronDelivery
deriving DecidableEq

/-- A job record as returned by `callCronList` (normalized booleans). -/
structure CronJobRecord where
  id : String
  spec : CronJobSpec
deriving DecidableEq

/-- A `DesiredCronJob`.  `buildBaseCronJob` gives `create` and `patch` the
same eight comparable fields (`create` additionally carries `agentId` and
`sessionKey`, which the reconciler never reads back), so the embedding
keeps one `spec`. -/
structure DesiredCronJob where
  key : String
  spec : CronJobSpec
deriving DecidableEq

/-- `buildJobKey`. -/
def buildJobKey (agentId suffix : String) : String :=
  JOB_NAMESPACE ++ ":" ++ agentId ++ ":" ++ suffix

/-- `buildRecurringCronExpr` (`Math.trunc` is the identity on `Int`). -/
def buildRecurringCronExpr (hour minute : Int) (dayOfWeek dayOfMonth : Option Int)
    (weekdaysOnly : Bool) : String :=
  let minute := max 0 (min 59 minute)
  let hour := max 0 (min 23 hour)
  match dayOfMonth with
  | some d =>
      let day := max 1 (min 28 d)
      s!"{minute} {hour} {day} * *"
  | none =>
      match dayOfWeek with
      | some w =>
          let dow := max 0 (min 6 w)
          s!"{minute} {hour} * * {dow}"
      | none =>
          if weekdaysOnly then s!"{minute} {hour} * * 1-5"
          else s!"{minute} {hour} * * *"

/-- `buildBaseCronJob`. -/
def buildBaseCronJob (key agentId : String) (schedule : CronSchedule)
    (deleteAfterRun : Bool) : DesiredCronJob :=
  let _ := agentId
  { key := key
    spec :=
      { name := key
        enabled := true
        deleteAfterRun := deleteAfterRun
        schedule := schedule
        sessionTarget := "isolated"
        wakeMode := "now"
        payload :=
          { kind := "agentTurn"
            message := s!"GTD_SCHEDULER_TICK key={key}. Reply exactly with OK."
            deliver := false }
        delivery := { mode := "none" } } }

/-- The scheduler-relevant slice of the resolved GTD plugin config. -/
structure GtdSchedulerConfig where
  dailyHour : Int
  dailyMinute : Int
  dailyWeekdaysOnly : Bool
  weeklyHour : Int
  weeklyMinute : Int
  weeklyDayOfWeek : Int
  horizonsHour : Int
  horizonsMinute : Int
  horizonsDayOfMonth : Int
  syncIntervalMinutes : Int
deriving DecidableEq

/-- `buildDesiredCronJobs`: the three recurring review jobs, the
calendar-sync job (whose `anchorMs` is `Date.now() + 60_000`), and one
one-shot job per active waiting item (`atMs` is
`max(followupAtMs, Date.now() + 1_000)`).  `tz` is the resolved timezone. -/
def buildDesiredCronJobs (agentId : String) (waitingFor : List WaitingItem)
    (tz : String) (cfg : GtdSchedulerConfig) (now : Int) : List DesiredCronJob :=
  [buildBaseCronJob (buildJobKey agentId "daily-review") agentId
      (CronSchedule.cronExpr
        (buildRecurringCronExpr cfg.dailyHour cfg.dailyMinute none none cfg.dailyWeekdaysOnly)
        tz)
      false,
    buildBaseCronJob (buildJobKey agentId "weekly-review") agentId
      (CronSchedule.cronExpr
        (buildRecurringCronExpr cfg.weeklyHour cfg.weeklyMinute (some cfg.weeklyDayOfWeek) none
          false)
        tz)
      false,
    buildBaseCronJob (buildJobKey agentId "horizons-review") agentId
      (CronSchedule.cronExpr
        (buildRecurringCronExpr cfg.horizonsHour cfg.horizonsMinute none
          (some cfg.horizonsDayOfMonth) false)
        tz)
      false,
    buildBaseCronJob (buildJobKey agentId "calendar-sync") agentId
      (CronSchedule.every (max 5 cfg.syncIntervalMinutes * 60 * 1000) (now + 60000))
      false]
    ++ (waitingFor.filter (fun item => item.status == "active")).map
      (fun waiting =>
        buildBaseCronJob (buildJobKey agentId ("waiting:" ++ waiting.id)) agentId
          (CronSchedule.atTime (max waiting.followupAtMs (now + 1000)))
          true)

/-- The `expected` record built inside `jobMatchesDesired` from the desired
job's key and patch fields. -/
def expectedSpec (d : DesiredCronJob) : CronJobSpec :=
  { name := d.key
    enabled := true
    deleteAfterRun := d.spec.deleteAfterRun
    schedule := d.spec.schedule
    sessionTarget := d.spec.sessionTarget
    wakeMode := d.spec.wakeMode
    payload := d.spec.payload
    delivery := d.spec.delivery }

/-- `jobMatchesDesired`. -/
def jobMatchesDesired (job : CronJobRecord) (d : DesiredCronJob) : Bool :=
  job.spec == expectedSpec d

/-- A gateway cron call issued during reconciliation. -/
inductive CronAction where
  | add (create : DesiredCronJob)
  | update (id : String) (patch : CronJobSpec)
  | remove (id : String)
deriving DecidableEq

/-- Insert into a list sorted by id (`localeCompare` ordering embedded as
the `String` order). -/
def sortByIdInsert (j : CronJobRecord) : List CronJobRecord → List CronJobRecord
  | [] => [j]
  | x :: rest => if j.id ≤ x.id then j :: x :: rest else x :: sortByIdInsert j rest

/-- `toSorted((a, b) => a.id.localeCompare(b.id))`. -/
def sortById (l : List CronJobRecord) : List CronJobRecord :=
  l.foldr sortByIdInsert []

/-- The cron calls issued for one desired job: a `cron.add` when no managed
job carries its name, else a `cron.update` of the lexicographically-first
job by id when it differs from desired, followed by `cron.remove` of every
same-name duplicate. -/
def desiredBatch (managedJobs : List CronJobRecord) (d : DesiredCronJob) :
    List CronAction :=
  let sameName := sortById (managedJobs.filter (fun j => j.spec.name == d.key))
  (match sameName with
    | [] => [CronAction.add d]
    | j :: _ =>
        if jobMatchesDesired j d then [] else [CronAction.update j.id (expectedSpec d)])
    ++ (sameName.drop 1).map (fun j => CronAction.remove j.id)

/-- The full list of cron calls issued by one `reconcileAgentJobs` pass:
per-desired convergence in order, then garbage collection of managed jobs
whose name is no longer desired.  (The job-ref bookkeeping written to GTD
state does not influence which calls are issued.) -/
def reconcileActions (desired : List DesiredCronJob) (existing : List CronJobRecord)
    (managedNs : String) : List CronAction :=
  let managedJobs := existing.filter (fun j => jsStartsWith j.spec.name managedNs)
  (desired.flatMap (desiredBatch managedJobs))
    ++ managedJobs.filterMap (fun j =>
      if desired.any (fun d => d.key == j.spec.name) then none
      else some (CronAction.remove j.id))

/-- One step of the external cron service consuming a call: `add` appends a
new job with the next fresh id and the create payload's fields, `update`
patches the job with the given id, `remove` deletes it. -/
def applyStep (acc : List CronJobRecord × List String) (a : CronAction) :
    List CronJobRecord × List String :=
  match a with
  | CronAction.add d =>
      match acc.2 with
      | [] => acc
      | i :: ids => (acc.1 ++ [{ id := i, spec := d.spec }], ids)
  | CronAction.update id patch =>
      (acc.1.map (fun j => if j.id == id then { j with spec := patch } else j), acc.2)
  | CronAction.remove id =>
      (acc.1.filter (fun j => j.id != id), acc.2)

/-- The managed-name namespace of one agent's reconciler
(`managedPrefix` in `reconcileAgentJobs`). -/
def managedNsOf (agentId : String) : String :=
  JOB_NAMESPACE ++ ":" ++ agentId ++ ":"

/-- The external cron service state after consuming a list of calls, given
a supply of fresh ids for `cron.add`. -/
def applyActions (acts : List CronAction) (svc : List CronJobRecord)
    (ids : List String) : List CronJobRecord :=
  (acts.foldl applyStep (svc, ids)).1

end Gtd

namespace Recovery

theorem mapGet_mapSet_self (m : List (String × α)) (k : String) (v : α) :
    mapGet (mapSet m k v) k = some v := by
  induction m with
  | nil => simp [mapSet, mapGet]
  | cons hd tl ih =>
      by_cases h : hd.1 = k
      · simp [mapSet, mapGet, h]
      · have hb : (hd.1 == k) = false := by simp [h]
        simp only [mapSet, mapGet, hb, Bool.false_eq_true, if_false]
        rw [List.find?_cons_of_neg _ (by simp [h])]
        exact ih

theorem mapGet_mapSet_ne (m : List (String × α)) (k k' : String) (v : α)
    (h : k' ≠ k) : mapGet (mapSet m k v) k' = mapGet m k' := by
  have hkk : (k == k') = false := by simp [Ne.symm h]
  induction m with
  | nil =>
      simp only [mapSet, mapGet]
      rw [List.find?_cons_of_neg _ (by simp [Ne.symm h])]
  | cons hd tl ih =>
      by_cases hh : hd.1 = k
      · have hb : (hd.1 == k) = true := by simp [hh]
        simp only [mapSet, mapGet, hb, if_true]
        rw [List.find?_cons_of_neg _ (by simp [Ne.symm h])]
        rw [List.find?_cons_of_neg _ (by rw [hh]; simp [Ne.symm h])]
      · have hb : (hd.1 == k) = false := by simp [hh]
        simp only [mapSet, mapGet, hb, Bool.false_eq_true, if_false]
        by_cases hk : hd.1 = k'
        · rw [List.find?_cons_of_pos _ (by simp [hk]), List.find?_cons_of_pos _ (by simp [hk])]
        · rw [List.find?_cons_of_neg _ (by simp [hk]), List.find?_cons_of_neg _ (by simp [hk])]
          exact ih

theorem mapGet_mapDelete_self (m : List (String × α)) (k : String) :
    mapGet (mapDelete m k) k = none := by
  induction m with
  | nil => simp [mapDelete, mapGet]
  | cons hd tl ih =>
      by_cases h : hd.1 = k
      · simp only [mapDelete, mapGet] at *
        rw [List.filter_cons_of_neg (by simp [h])]
        exact ih
      · simp only [mapDelete, mapGet] at *
        rw [List.filter_cons_of_pos (by simp [h])]
        rw [List.find?_cons_of_neg _ (by simp [h])]
        exact ih

theorem mapGet_mapDelete_ne (m : List (String × α)) (k k' : String)
    (h : k' ≠ k) : mapGet (mapDelete m k) k' = mapGet m k' := by
  induction m with
  | nil => simp [mapDelete, mapGet]
  | cons hd tl ih =>
      by_cases hh : hd.1 = k
      · have hk : ¬hd.1 = k' := by
          rw [hh]; exact Ne.symm h
        simp only [mapDelete, mapGet] at *
        rw [List.filter_cons_of_neg (by simp [hh])]
        rw [List.find?_cons_of_neg _ (by simp [hk])]
        exact ih
      · simp only [mapDelete, mapGet] at *
        rw [List.filter_cons_of_pos (by simp [hh])]
        by_cases hk : hd.1 = k'
        · rw [List.find?_cons_of_pos _ (by simp [hk]), List.find?_cons_of_pos _ (by simp [hk])]
        · rw [List.find?_cons_of_neg _ (by simp [hk]), List.find?_cons_of_neg _ (by simp [hk])]
          exact ih

end Recovery

namespace Recovery

/-- C7: `markRunInFlight` on a runId already present preserves the existing
entry's `startedAtMs`, `recoveryAttempts` and `lastRecoveryAtMs`, changes
only `updatedAtMs` and the provided `sessionKey`/`source`/`accountId`
fields, and leaves every other entry unchanged; an empty or
whitespace-only `runId` or `sessionKey`, or a missing `source`, leaves the
store entirely unchanged (the embedding is total, so no exception is
thrown). -/
theorem markRunInFlight_c7 (store : RunStore) (p : MarkRunParams) (now : Int) :
    (∀ src e, p.source = some src → (jsTrim p.runId) ≠ "" → (jsTrim p.sessionKey) ≠ "" →
      mapGet store (jsTrim p.runId) = some e →
      mapGet (markRunInFlight store p now) (jsTrim p.runId) =
        some { runId := (jsTrim p.runId)
               sessionKey := (jsTrim p.sessionKey)
               source := src
               accountId := p.accountId.map jsTrim
               startedAtMs := e.startedAtMs
               updatedAtMs := now
               recoveryAttempts := e.recoveryAttempts
               lastRecoveryAtMs := e.lastRecoveryAtMs } ∧
      (∀ k, k ≠ (jsTrim p.runId) → mapGet (markRunInFlight store p now) k = mapGet store k))
    ∧ (((jsTrim p.runId) = "" ∨ (jsTrim p.sessionKey) = "" ∨ p.source = none) →
      markRunInFlight store p now = store) := by
  constructor
  · intro src e hsrc hr hs hget
    have hrb : ((jsTrim p.runId) == "") = false := by simp [hr]
    have hsb : ((jsTrim p.sessionKey) == "") = false := by simp [hs]
    constructor
    · simp only [markRunInFlight, hsrc, hrb, hsb, Bool.or_self, Bool.false_or,
        Bool.false_eq_true, if_false, hget]
      rw [mapGet_mapSet_self]
      simp
    · intro k hk
      simp only [markRunInFlight, hsrc, hrb, hsb, Bool.false_or,
        Bool.false_eq_true, if_false, hget]
      rw [mapGet_mapSet_ne _ _ _ _ hk]
  · intro h
    rcases h with h | h | h
    · have hrb : ((jsTrim p.runId) == "") = true := by simp [h]
      simp only [markRunInFlight, hrb, Bool.true_or]
      cases p.source <;> simp
    · have hsb : ((jsTrim p.sessionKey) == "") = true := by simp [h]
      simp only [markRunInFlight, hsb, Bool.or_true]
      cases p.source <;> simp
    · simp [markRunInFlight, h]

/-- Witness for C7 at concrete inputs: a re-registration of run id `r`
with a new session key preserves `startedAtMs`/`recoveryAttempts`/
`lastRecoveryAtMs`, and a whitespace-only run id is a no-op. -/
theorem markRunInFlight_c7_witness :
    mapGet
        (markRunInFlight
          [("r", { runId := "r", sessionKey := "s", source := RunRecoverySource.chat_send,
                   accountId := none, startedAtMs := 1, updatedAtMs := 1,
                   recoveryAttempts := some 2, lastRecoveryAtMs := some 3 })]
          { runId := "r", sessionKey := "s2", source := some RunRecoverySource.chat_send,
            accountId := none }
          5)
        "r" =
      some { runId := "r", sessionKey := "s2", source := RunRecoverySource.chat_send,
             accountId := none, startedAtMs := 1, updatedAtMs := 5,
             recoveryAttempts := some 2, lastRecoveryAtMs := some 3 }
    ∧ markRunInFlight
        [("r", { runId := "r", sessionKey := "s", source := RunRecoverySource.chat_send,
                 accountId := none, startedAtMs := 1, updatedAtMs := 1,
                 recoveryAttempts := some 2, lastRecoveryAtMs := some 3 })]
        { runId := " ", sessionKey := "s", source := some RunRecoverySource.chat_send,
          accountId := none }
        5 =
      [("r", { runId := "r", sessionKey := "s", source := RunRecoverySource.chat_send,
               accountId := none, startedAtMs := 1, updatedAtMs := 1,
               recoveryAttempts := some 2, lastRecoveryAtMs := some 3 })] := by
  constructor
  · exact ((markRunInFlight_c7
      [("r", { runId := "r", sessionKey := "s", source := RunRecoverySource.chat_send,
               accountId := none, startedAtMs := 1, updatedAtMs := 1,
               recoveryAttempts := some 2, lastRecoveryAtMs := some 3 })]
      { runId := "r", sessionKey := "s2", source := some RunRecoverySource.chat_send,
        accountId := none }
      5).1 RunRecoverySource.chat_send
      { runId := "r", sessionKey := "s", source := RunRecoverySource.chat_send,
        accountId := none, startedAtMs := 1, updatedAtMs := 1,
        recoveryAttempts := some 2, lastRecoveryAtMs := some 3 }
      rfl (by decide) (by decide) (by decide)).1
  · exact (markRunInFlight_c7
      [("r", { runId := "r", sessionKey := "s", source := RunRecoverySource.chat_send,
               accountId := none, startedAtMs := 1, updatedAtMs := 1,
               recoveryAttempts := some 2, lastRecoveryAtMs := some 3 })]
      { runId := " ", sessionKey := "s", source := some RunRecoverySource.chat_send,
        accountId := none } 5).2 (Or.inl (by decide))

end Recovery

namespace Recovery

/-- Counterexample to C8: a store file whose `version` field is `99`
(neither the current version 2 nor the legacy version 1) still yields its
entry — the current loader never consults the `version` field, so the
claimed "unrecognized schema version yields no entries" fails. -/
theorem loadPersistedGatewayChatRuns_c8_cex :
    jsField
        (Json.obj
          [("version", Json.num 99),
            ("runs",
              Json.obj
                [("run-1",
                  Json.obj
                    [("runId", Json.str "run-1"), ("sessionKey", Json.str "main"),
                      ("startedAtMs", Json.num 5), ("updatedAtMs", Json.num 5)])])])
        "version" = some (Json.num 99)
    ∧ loadPersistedGatewayChatRuns
        (some
          (Json.obj
            [("version", Json.num 99),
              ("runs",
                Json.obj
                  [("run-1",
                    Json.obj
                      [("runId", Json.str "run-1"), ("sessionKey", Json.str "main"),
                        ("startedAtMs", Json.num 5), ("updatedAtMs", Json.num 5)])])]))
        0 ≠ [] := by
  constructor
  · rfl
  · decide

/-- C8 as amended: a missing or unparseable store file, a falsy or
non-object top-level value, and a missing, falsy or non-object `runs`
field all load as the empty store; but the `version` field is ignored
entirely (replacing it by any other value leaves the load unchanged), so
an unrecognized version does not empty the store. -/
theorem loadPersistedGatewayChatRuns_c8_amended (now : Int) :
    loadPersistedGatewayChatRuns none now = []
    ∧ (∀ j, (jsFalsy j || !jsTypeofObject j) = true →
        loadPersistedGatewayChatRuns (some j) now = [])
    ∧ (∀ j, jsField j "runs" = none → loadPersistedGatewayChatRuns (some j) now = [])
    ∧ (∀ j r, jsField j "runs" = some r → (jsFalsy r || !jsTypeofObject r) = true →
        loadPersistedGatewayChatRuns (some j) now = [])
    ∧ (∀ v fields,
        loadPersistedGatewayChatRuns (some (Json.obj (("version", v) :: fields))) now =
          loadPersistedGatewayChatRuns (some (Json.obj (("version", Json.num 2) :: fields))) now) := by
  refine ⟨rfl, ?_, ?_, ?_, ?_⟩
  · intro j h
    simp [loadPersistedGatewayChatRuns, h]
  · intro j h
    by_cases hj : (jsFalsy j || !jsTypeofObject j) = true
    · simp [loadPersistedGatewayChatRuns, hj]
    · simp [loadPersistedGatewayChatRuns, hj, h]
  · intro j r hr hbad
    by_cases hj : (jsFalsy j || !jsTypeofObject j) = true
    · simp [loadPersistedGatewayChatRuns, hj]
    · simp [loadPersistedGatewayChatRuns, hj, hr, hbad]
  · intro v fields
    have hfield : ∀ w, jsField (Json.obj (("version", w) :: fields)) "runs" =
        jsField (Json.obj fields) "runs" := by
      intro w
      simp only [jsField, List.reverse_cons, List.find?_append]
      have : List.find? (fun e => e.1 == "runs") [(("version", w) : String × Json)] = none := by
        simp [List.find?]
      rw [this]
      cases List.find? (fun e => e.1 == "runs") fields.reverse <;> simp
    simp only [loadPersistedGatewayChatRuns, jsFalsy, jsTypeofObject, hfield]

/-- Witness for C8's amended theorem at concrete inputs: a falsy top-level
value, an object without `runs`, a non-object `runs`, and a version swap
on a concrete store. -/
theorem loadPersistedGatewayChatRuns_c8_amended_witness :
    loadPersistedGatewayChatRuns (some (Json.str "")) 0 = []
    ∧ loadPersistedGatewayChatRuns (some (Json.obj [("version", Json.num 2)])) 0 = []
    ∧ loadPersistedGatewayChatRuns
        (some (Json.obj [("version", Json.num 2), ("runs", Json.num 7)])) 0 = []
    ∧ loadPersistedGatewayChatRuns
        (some (Json.obj [("version", Json.num 99), ("runs", Json.obj [])])) 0 =
      loadPersistedGatewayChatRuns
        (some (Json.obj [("version", Json.num 2), ("runs", Json.obj [])])) 0 := by
  refine ⟨?_, ?_, ?_, ?_⟩
  · exact (loadPersistedGatewayChatRuns_c8_amended 0).2.1 (Json.str "") (by decide)
  · exact (loadPersistedGatewayChatRuns_c8_amended 0).2.2.1
      (Json.obj [("version", Json.num 2)]) (by rfl)
  · exact (loadPersistedGatewayChatRuns_c8_amended 0).2.2.2.1
      (Json.obj [("version", Json.num 2), ("runs", Json.num 7)]) (Json.num 7) (by rfl) (by decide)
  · exact (loadPersistedGatewayChatRuns_c8_amended 0).2.2.2.2 (Json.num 99) [("runs", Json.obj [])]

end Recovery

namespace Recovery

/-- Counterexample to C4: an assistant last message with stop reason
`tooluse` and no tool-use block.  The code treats `tooluse` as
non-terminal and resumes; the claim's enumeration (`tool_use`/`tool_calls`
non-terminal, otherwise decided by block scan) classifies it as a
completed terminal turn and would not resume. -/
theorem shouldResumeFromTranscript_c4_cex :
    shouldResumeFromTranscript
        { resolved := true,
          messages := [{ role := "assistant", stopReason := some "tooluse", content := some [] }] }
      = true
    ∧ claimShouldResume
        { resolved := true,
          messages := [{ role := "assistant", stopReason := some "tooluse", content := some [] }] }
      = false := by
  constructor
  · rfl
  · rfl

theorem isCompletedTerminalAssistant_iff (m : TranscriptMsg) :
    isCompletedTerminalAssistant m = true ↔ TerminalSpecAmended m := by
  simp only [isCompletedTerminalAssistant, TerminalSpecAmended, List.mem_cons,
    List.not_mem_nil, or_false]
  cases h1 : (stopReasonNorm m == "stop" || stopReasonNorm m == "end_turn"
      || stopReasonNorm m == "endturn") with
  | true =>
      simp only [h1, if_true, true_iff]
      simp only [Bool.or_eq_true, beq_iff_eq] at h1
      exact Or.inl (by tauto)
  | false =>
      simp only [h1, Bool.false_eq_true, if_false]
      simp only [Bool.or_eq_false_iff, beq_eq_false_iff_ne] at h1
      cases h2 : (stopReasonNorm m == "error" || stopReasonNorm m == "aborted") with
      | true =>
          simp only [h2, if_true, true_iff]
          simp only [Bool.or_eq_true, beq_iff_eq] at h2
          exact Or.inl (by tauto)
      | false =>
          simp only [h2, Bool.false_eq_true, if_false]
          simp only [Bool.or_eq_false_iff, beq_eq_false_iff_ne] at h2
          cases h3 : (stopReasonNorm m == "tooluse" || stopReasonNorm m == "tool_use"
              || stopReasonNorm m == "tool_calls") with
          | true =>
              simp only [h3, if_true, Bool.false_eq_true, false_iff]
              simp only [Bool.or_eq_true, beq_iff_eq] at h3
              intro hspec
              rcases hspec with hmem | ⟨_, hnot, _⟩
              · rcases hmem with h | h | h | h | h
                · exact h1.1.1 h
                · exact h1.1.2 h
                · exact h1.2 h
                · exact h2.1 h
                · exact h2.2 h
              · exact hnot (by tauto)
          | false =>
              simp only [h3, Bool.false_eq_true, if_false]
              simp only [Bool.or_eq_false_iff, beq_eq_false_iff_ne] at h3
              constructor
              · intro hc
                refine Or.inr ⟨by tauto, by tauto, ?_⟩
                simpa using hc
              · intro hspec
                rcases hspec with hmem | ⟨_, _, hc⟩
                · exact absurd hmem (by tauto)
                · simp [hc]

/-- C4 as amended: the transcript-based resumption decision returns `true`
exactly when the session resolves, a last message exists, and that message
has role `user` or `toolResult`, or is an assistant message that is not a
completed terminal turn — where terminal stop reasons are
`stop`/`end_turn`/`endturn`/`error`/`aborted`, non-terminal reasons are
`tooluse`/`tool_use`/`tool_calls` (the claim omitted `tooluse`), and any
other reason falls back to the absence of a
tool-use/tool-call/function-call content block. -/
theorem shouldResumeFromTranscript_c4_amended (s : SessionLookup) :
    shouldResumeFromTranscript s = true ↔ ResumeSpecAmended s := by
  unfold shouldResumeFromTranscript ResumeSpecAmended
  cases hres : s.resolved with
  | false => simp
  | true =>
      simp only [Bool.not_true, Bool.false_eq_true, if_false, true_and]
      cases hl : s.messages.getLast? with
      | none => simp
      | some last =>
          simp only [Option.some.injEq]
          cases h1 : (last.role == "user" || last.role == "toolResult") with
          | true =>
              simp only [h1, if_true, true_iff]
              simp only [Bool.or_eq_true, beq_iff_eq] at h1
              exact ⟨last, rfl, by tauto⟩
          | false =>
              simp only [h1, Bool.false_eq_true, if_false]
              simp only [Bool.or_eq_false_iff, beq_eq_false_iff_ne] at h1
              cases h2 : (last.role != "assistant") with
              | true =>
                  simp only [h2, if_true, Bool.false_eq_true, false_iff]
                  simp only [bne_iff_ne] at h2
                  rintro ⟨l, hls, hrole⟩
                  rw [show l = last from hls.symm] at hrole
                  rcases hrole with h | h | ⟨h, _⟩
                  · exact h1.1 h
                  · exact h1.2 h
                  · exact h2 h
              | false =>
                  simp only [h2, Bool.false_eq_true, if_false]
                  have hrole : last.role = "assistant" := by
                    simpa using h2
                  constructor
                  · intro hc
                    refine ⟨last, rfl, Or.inr (Or.inr ⟨hrole, ?_⟩)⟩
                    intro hterm
                    rw [← isCompletedTerminalAssistant_iff] at hterm
                    simp [hterm] at hc
                  · rintro ⟨l, hls, hcase⟩
                    rw [show l = last from hls.symm] at hcase
                    rcases hcase with h | h | ⟨_, hnterm⟩
                    · exact absurd h h1.1
                    · exact absurd h h1.2
                    · rw [← isCompletedTerminalAssistant_iff] at hnterm
                      simp at hnterm
                      simp [hnterm]

/-- Witness for C4's amended theorem at a concrete transcript: a resolved
session whose last message is a `user` message resumes. -/
theorem shouldResumeFromTranscript_c4_amended_witness :
    ResumeSpecAmended
      { resolved := true,
        messages := [{ role := "user", stopReason := none, content := none }] } :=
  (shouldResumeFromTranscript_c4_amended
    { resolved := true,
      messages := [{ role := "user", stopReason := none, content := none }] }).mp rfl

theorem recoverStep_absent (now : Int) (fsrc : Option RunRecoverySource)
    (facct : Option String) (lookup : String → SessionLookup)
    (resumeFn : PersistedGatewayChatRun → Bool) (acc : RecoverOutcome)
    (k : String) (e : PersistedGatewayChatRun) (r : String) (hk : k ≠ r)
    (h : mapGet acc.runs r = none) :
    mapGet (recoverStep now fsrc facct lookup resumeFn acc k e).runs r = none := by
  have hdel : mapGet (mapDelete acc.runs k) r = none := by
    rw [mapGet_mapDelete_ne _ _ _ (Ne.symm hk)]; exact h
  have hset : ∀ e', mapGet (mapSet acc.runs k e') r = none := by
    intro e'
    rw [mapGet_mapSet_ne _ _ _ _ (Ne.symm hk)]; exact h
  unfold recoverStep
  by_cases h1 : srcSkip fsrc e.source = true
  · rw [if_pos h1]; exact h
  · rw [if_neg h1]
    by_cases h2 : acctSkip facct e.accountId = true
    · rw [if_pos h2]; exact h
    · rw [if_neg h2]
      dsimp only
      by_cases h3 : ((now - e.startedAtMs > MAX_RUN_AGE_MS : Bool)
          || (e.recoveryAttempts.getD 0 ≥ MAX_RECOVERY_ATTEMPTS : Bool)) = true
      · rw [if_pos h3]; exact hdel
      · rw [if_neg h3]
        by_cases h4 : (!shouldResumeFromTranscript (lookup e.sessionKey)) = true
        · rw [if_pos h4]; exact hdel
        · rw [if_neg h4]; exact hset _

theorem recoverStep_resumed (now : Int) (fsrc : Option RunRecoverySource)
    (facct : Option String) (lookup : String → SessionLookup)
    (resumeFn : PersistedGatewayChatRun → Bool) (acc : RecoverOutcome)
    (k : String) (e : PersistedGatewayChatRun) (r : String)
    (h : r ∈ (recoverStep now fsrc facct lookup resumeFn acc k e).resumed) :
    r ∈ acc.resumed ∨ r = k := by
  unfold recoverStep at h
  revert h
  by_cases h1 : srcSkip fsrc e.source = true
  · rw [if_pos h1]; exact fun h => Or.inl h
  · rw [if_neg h1]
    by_cases h2 : acctSkip facct e.accountId = true
    · rw [if_pos h2]; exact fun h => Or.inl h
    · rw [if_neg h2]
      dsimp only
      by_cases h3 : ((now - e.startedAtMs > MAX_RUN_AGE_MS : Bool)
          || (e.recoveryAttempts.getD 0 ≥ MAX_RECOVERY_ATTEMPTS : Bool)) = true
      · rw [if_pos h3]; exact fun h => Or.inl h
      · rw [if_neg h3]
        by_cases h4 : (!shouldResumeFromTranscript (lookup e.sessionKey)) = true
        · rw [if_pos h4]; exact fun h => Or.inl h
        · rw [if_neg h4]
          intro h
          simp only [List.mem_append, List.mem_singleton] at h
          exact h

theorem recoverFold_absent (now : Int) (fsrc : Option RunRecoverySource)
    (facct : Option String) (lookup : String → SessionLookup)
    (resumeFn : PersistedGatewayChatRun → Bool)
    (l : List (String × PersistedGatewayChatRun)) (acc : RecoverOutcome) (r : String)
    (hall : ∀ kv ∈ l, kv.1 ≠ r) (h : mapGet acc.runs r = none) :
    mapGet
      (l.foldl (fun acc e => recoverStep now fsrc facct lookup resumeFn acc e.1 e.2) acc).runs
      r = none := by
  induction l generalizing acc with
  | nil => exact h
  | cons hd tl ih =>
      simp only [List.foldl_cons]
      exact ih _ (fun kv hkv => hall kv (List.mem_cons_of_mem _ hkv))
        (recoverStep_absent now fsrc facct lookup resumeFn acc hd.1 hd.2 r
          (hall hd (List.mem_cons_self _ _)) h)

theorem recoverFold_resumed (now : Int) (fsrc : Option RunRecoverySource)
    (facct : Option String) (lookup : String → SessionLookup)
    (resumeFn : PersistedGatewayChatRun → Bool)
    (l : List (String × PersistedGatewayChatRun)) (acc : RecoverOutcome) (r : String)
    (h : r ∈
      (l.foldl (fun acc e => recoverStep now fsrc facct lookup resumeFn acc e.1 e.2) acc).resumed) :
    r ∈ acc.resumed ∨ ∃ kv ∈ l, kv.1 = r := by
  induction l generalizing acc with
  | nil => exact Or.inl h
  | cons hd tl ih =>
      simp only [List.foldl_cons] at h
      rcases ih _ h with hin | ⟨kv, hkv, hr⟩
      · rcases recoverStep_resumed now fsrc facct lookup resumeFn acc hd.1 hd.2 r hin with
          hin2 | hr2
        · exact Or.inl hin2
        · exact Or.inr ⟨hd, List.mem_cons_self _ _, hr2.symm⟩
      · exact Or.inr ⟨kv, List.mem_cons_of_mem _ hkv, hr⟩

theorem srcSkip_false (fsrc : Option RunRecoverySource) (esrc : RunRecoverySource)
    (hsrc : ∀ s, fsrc = some s → esrc = s) : srcSkip fsrc esrc = false := by
  revert hsrc
  cases fsrc with
  | none => intro _; rfl
  | some s => intro hsrc; simp [srcSkip, hsrc s rfl]

theorem acctSkip_false (facct : Option String) (eacc : Option String)
    (hacct : ∀ a, facct = some a → a ≠ "" → eacc = some a) :
    acctSkip facct eacc = false := by
  revert hacct
  cases facct with
  | none => intro _; rfl
  | some a =>
      intro hacct
      by_cases ha : a = ""
      · simp [acctSkip, ha]
      · simp [acctSkip, hacct a rfl ha]

/-- C3: every persisted run entry that passes the source/account filter and
is expired — `now - startedAtMs > MAX_RUN_AGE_MS` (2 hours), or
`recoveryAttempts` at least `MAX_RECOVERY_ATTEMPTS` (3) — is deleted from
the store without the `resume` callback ever being invoked for it,
regardless of transcript content (`lookup` is arbitrary).  The embedded
guard keeps the source's short-circuit order, age before attempt count. -/
theorem recoverInterruptedRuns_c3 (now : Int) (store : RunStore)
    (fsrc : Option RunRecoverySource) (facct : Option String)
    (lookup : String → SessionLookup) (resumeFn : PersistedGatewayChatRun → Bool)
    (runId : String) (entry : PersistedGatewayChatRun)
    (hmem : (runId, entry) ∈ store)
    (hnodup : (store.map Prod.fst).Nodup)
    (hsrc : ∀ s, fsrc = some s → entry.source = s)
    (hacct : ∀ a, facct = some a → a ≠ "" → entry.accountId = some a)
    (hexp : now - entry.startedAtMs > MAX_RUN_AGE_MS
      ∨ entry.recoveryAttempts.getD 0 ≥ MAX_RECOVERY_ATTEMPTS) :
    mapGet (recoverInterruptedRuns now store fsrc facct lookup resumeFn).runs runId = none
    ∧ runId ∉ (recoverInterruptedRuns now store fsrc facct lookup resumeFn).resumed := by
  obtain ⟨l1, l2, hsplit⟩ := List.append_of_mem hmem
  subst hsplit
  have hmid := hnodup
  rw [List.map_append, List.map_cons] at hmid
  have hnm : runId ∉ l1.map Prod.fst ++ l2.map Prod.fst := by
    have := List.nodup_middle.mp (by simpa using hmid)
    exact this.not_mem
  have hn1 : ∀ kv ∈ l1, kv.1 ≠ runId := by
    intro kv hkv heq
    exact hnm (List.mem_append_left _ (heq ▸ List.mem_map_of_mem Prod.fst hkv))
  have hn2 : ∀ kv ∈ l2, kv.1 ≠ runId := by
    intro kv hkv heq
    exact hnm (List.mem_append_right _ (heq ▸ List.mem_map_of_mem Prod.fst hkv))
  unfold recoverInterruptedRuns
  rw [List.foldl_append, List.foldl_cons]
  set acc1 := l1.foldl
    (fun acc e => recoverStep now fsrc facct lookup resumeFn acc e.1 e.2)
    { runs := l1 ++ (runId, entry) :: l2, resumed := [] } with hacc1
  have hstep : recoverStep now fsrc facct lookup resumeFn acc1 runId entry =
      { acc1 with runs := mapDelete acc1.runs runId } := by
    have hc1 := srcSkip_false fsrc entry.source hsrc
    have hc2 := acctSkip_false facct entry.accountId hacct
    have hcond : ((now - entry.startedAtMs > MAX_RUN_AGE_MS : Bool)
        || (entry.recoveryAttempts.getD 0 ≥ MAX_RECOVERY_ATTEMPTS : Bool)) = true := by
      rcases hexp with h | h <;> simp [h]
    unfold recoverStep
    rw [if_neg (by rw [hc1]; exact Bool.false_ne_true)]
    rw [if_neg (by rw [hc2]; exact Bool.false_ne_true)]
    dsimp only
    rw [if_pos hcond]
  rw [hstep]
  constructor
  · exact recoverFold_absent now fsrc facct lookup resumeFn l2 _ runId hn2
      (by simpa using mapGet_mapDelete_self acc1.runs runId)
  · intro hres
    rcases recoverFold_resumed now fsrc facct lookup resumeFn l2 _ runId hres with hin | ⟨kv, hkv, hr⟩
    · rcases recoverFold_resumed now fsrc facct lookup resumeFn l1 _ runId (by simpa using hin) with
        hin2 | ⟨kv, hkv, hr⟩
      · simp at hin2
      · exact hn1 kv hkv hr
    · exact hn2 kv hkv hr

/-- Witness for C3 at a concrete store: a run started at time 0, inspected
at `now` beyond the 2-hour age limit, is deleted and never resumed. -/
theorem recoverInterruptedRuns_c3_witness :
    mapGet
        (recoverInterruptedRuns 7300000
          [("r1", { runId := "r1", sessionKey := "s", source := RunRecoverySource.chat_send,
                    accountId := none, startedAtMs := 0, updatedAtMs := 0,
                    recoveryAttempts := none, lastRecoveryAtMs := none })]
          none none (fun _ => { resolved := true, messages := [] }) (fun _ => true)).runs
        "r1" = none
    ∧ "r1" ∉
      (recoverInterruptedRuns 7300000
        [("r1", { runId := "r1", sessionKey := "s", source := RunRecoverySource.chat_send,
                  accountId := none, startedAtMs := 0, updatedAtMs := 0,
                  recoveryAttempts := none, lastRecoveryAtMs := none })]
        none none (fun _ => { resolved := true, messages := [] }) (fun _ => true)).resumed :=
  recoverInterruptedRuns_c3 7300000
    [("r1", { runId := "r1", sessionKey := "s", source := RunRecoverySource.chat_send,
              accountId := none, startedAtMs := 0, updatedAtMs := 0,
              recoveryAttempts := none, lastRecoveryAtMs := none })]
    none none (fun _ => { resolved := true, messages := [] }) (fun _ => true)
    "r1"
    { runId := "r1", sessionKey := "s", source := RunRecoverySource.chat_send,
      accountId := none, startedAtMs := 0, updatedAtMs := 0,
      recoveryAttempts := none, lastRecoveryAtMs := none }
    (by decide) (by decide) (fun s h => Option.noConfusion h) (fun a h _ => Option.noConfusion h)
    (Or.inl (by decide))

end Recovery

namespace Gtd

theorem getLast_setLast_self (markers : List RunMarker) (k : String) (v now : Int) :
    getLastProcessedRunAt (setLastProcessedRunAt markers k v now) k = v := by
  induction markers with
  | nil => simp [setLastProcessedRunAt, getLastProcessedRunAt, List.find?]
  | cons m rest ih =>
      by_cases h : m.key = k
      · have hb : (m.key == k) = true := by simp [h]
        simp only [setLastProcessedRunAt, hb, if_true, getLastProcessedRunAt]
        rw [List.find?_cons_of_pos _ (by simp [h])]
      · have hb : (m.key == k) = false := by simp [h]
        simp only [setLastProcessedRunAt, hb, Bool.false_eq_true, if_false,
          getLastProcessedRunAt]
        rw [List.find?_cons_of_neg _ (by simp [h])]
        exact ih

theorem getLast_setLast_ne (markers : List RunMarker) (k k' : String) (v now : Int)
    (h : k' ≠ k) :
    getLastProcessedRunAt (setLastProcessedRunAt markers k v now) k' =
      getLastProcessedRunAt markers k' := by
  induction markers with
  | nil =>
      simp only [setLastProcessedRunAt, getLastProcessedRunAt]
      rw [List.find?_cons_of_neg _ (by simp [Ne.symm h])]
  | cons m rest ih =>
      by_cases hh : m.key = k
      · have hb : (m.key == k) = true := by simp [hh]
        simp only [setLastProcessedRunAt, hb, if_true, getLastProcessedRunAt]
        rw [List.find?_cons_of_neg _ (by simp [hh, Ne.symm h])]
        rw [List.find?_cons_of_neg _ (by simp [hh, Ne.symm h])]
      · have hb : (m.key == k) = false := by simp [hh]
        simp only [setLastProcessedRunAt, hb, Bool.false_eq_true, if_false,
          getLastProcessedRunAt]
        by_cases hk : m.key = k'
        · rw [List.find?_cons_of_pos _ (by simp [hk]), List.find?_cons_of_pos _ (by simp [hk])]
        · rw [List.find?_cons_of_neg _ (by simp [hk]), List.find?_cons_of_neg _ (by simp [hk])]
          exact ih

theorem processRunStep_mono {W : Type} (fetch : String → Option CronRunEntry)
    (handler : String → W → W × String) (now : Int)
    (acc : SchedState W × Bool × List Invocation) (ref : SchedulerJobRef) (k : String) :
    getLastProcessedRunAt acc.1.lastProcessedRuns k ≤
      getLastProcessedRunAt (processRunStep fetch handler now acc ref).1.lastProcessedRuns k := by
  unfold processRunStep
  cases hf : fetch ref.cronJobId with
  | none => exact le_refl _
  | some latest =>
      dsimp only
      by_cases h0 : (effectiveRunAt latest == 0) = true
      · rw [if_pos h0]
      · rw [if_neg h0]
        by_cases hle : effectiveRunAt latest ≤
            getLastProcessedRunAt acc.1.lastProcessedRuns ref.key
        · rw [if_pos hle]
        · rw [if_neg hle]
          dsimp only
          by_cases hk : k = ref.key
          · subst hk
            rw [getLast_setLast_self]
            omega
          · rw [getLast_setLast_ne _ _ _ _ _ hk]

theorem processFold_mono {W : Type} (fetch : String → Option CronRunEntry)
    (handler : String → W → W × String) (now : Int)
    (l : List SchedulerJobRef) (acc : SchedState W × Bool × List Invocation) (k : String) :
    getLastProcessedRunAt acc.1.lastProcessedRuns k ≤
      getLastProcessedRunAt
        (l.foldl (processRunStep fetch handler now) acc).1.lastProcessedRuns k := by
  induction l generalizing acc with
  | nil => exact le_refl _
  | cons hd tl ih =>
      simp only [List.foldl_cons]
      exact le_trans (processRunStep_mono fetch handler now acc hd k) (ih _)

/-- C10: per-key monotonicity of the last-processed markers — one
`processTriggeredRuns` pass never moves any key's marker backwards (the
marker is rewritten only under the strict `runAtMs > lastSeen` guard), so
no sequence of scheduler ticks can decrease a marker. -/
theorem processTriggeredRuns_c10 {W : Type} (st : SchedState W)
    (fetch : String → Option CronRunEntry) (handler : String → W → W × String)
    (now : Int) (key : String) :
    getLastProcessedRunAt st.lastProcessedRuns key ≤
      getLastProcessedRunAt
        (processTriggeredRuns st fetch handler now).1.lastProcessedRuns key :=
  processFold_mono fetch handler now st.jobs (st, false, []) key

end Gtd

namespace Gtd

/-- Counterexample to C1: a single tracked job whose latest external run
has timestamp 5 (newer than the empty marker) and status `error`.  The run
is logged and not processed (no handler invocation is recorded), but the
last-processed marker for the key IS advanced to 5 —
`setLastProcessedRunAt` sits after the status branch — so a later
successful run with that same timestamp would no longer be processed,
contradicting the claim's "the last-processed marker for that key is not
advanced". -/
theorem processTriggeredRuns_c1_cex :
    getLastProcessedRunAt
        (processTriggeredRuns
          { jobs := [{ key := "k", cronJobId := "c", createdAtMs := 0, updatedAtMs := 0 }],
            lastProcessedRuns := [], world := () }
          (fun _ => some { ts := some 5, runAtMs := none, status := some "error" })
          (fun _ w => (w, "")) 7).1.lastProcessedRuns "k" = 5
    ∧ (processTriggeredRuns
        { jobs := [{ key := "k", cronJobId := "c", createdAtMs := 0, updatedAtMs := 0 }],
          lastProcessedRuns := [], world := () }
        (fun _ => some { ts := some 5, runAtMs := none, status := some "error" })
        (fun _ w => (w, "")) 7).2.2 = [] := by
  constructor
  · rfl
  · rfl

theorem processRunStep_invoked {W : Type} (fetch : String → Option CronRunEntry)
    (handler : String → W → W × String) (now : Int)
    (acc : SchedState W × Bool × List Invocation) (ref : SchedulerJobRef)
    (inv : Invocation)
    (h : inv ∈ (processRunStep fetch handler now acc ref).2.2) :
    inv ∈ acc.2.2
    ∨ ∃ e, fetch inv.cronJobId = some e ∧ e.status = some "ok"
        ∧ inv.runAtMs = effectiveRunAt e := by
  revert h
  unfold processRunStep
  cases hf : fetch ref.cronJobId with
  | none => exact fun h => Or.inl h
  | some latest =>
      dsimp only
      by_cases h0 : (effectiveRunAt latest == 0) = true
      · rw [if_pos h0]; exact fun h => Or.inl h
      · rw [if_neg h0]
        by_cases hle : effectiveRunAt latest ≤
            getLastProcessedRunAt acc.1.lastProcessedRuns ref.key
        · rw [if_pos hle]; exact fun h => Or.inl h
        · rw [if_neg hle]
          dsimp only
          by_cases hok : (latest.status == some "ok") = true
          · rw [if_pos hok]
            intro h
            rcases List.mem_append.mp h with hin | hnew
            · exact Or.inl hin
            · simp only [List.mem_singleton] at hnew
              subst hnew
              exact Or.inr ⟨latest, hf, by simpa using hok, rfl⟩
          · rw [if_neg hok]
            exact fun h => Or.inl h

theorem processFold_invoked {W : Type} (fetch : String → Option CronRunEntry)
    (handler : String → W → W × String) (now : Int)
    (l : List SchedulerJobRef) (acc : SchedState W × Bool × List Invocation)
    (inv : Invocation)
    (h : inv ∈ (l.foldl (processRunStep fetch handler now) acc).2.2) :
    inv ∈ acc.2.2
    ∨ ∃ e, fetch inv.cronJobId = some e ∧ e.status = some "ok"
        ∧ inv.runAtMs = effectiveRunAt e := by
  induction l generalizing acc with
  | nil => exact Or.inl h
  | cons hd tl ih =>
      simp only [List.foldl_cons] at h
      rcases ih _ h with hin | hex
      · exact processRunStep_invoked fetch handler now acc hd inv hin
      · exact Or.inr hex

/-- C1 as amended: for every tracked job ref whose latest fetched run has a
non-zero timestamp, a run with non-success status is logged but its effect
handler is never invoked; however the last-processed marker for the key IS
advanced at least to that run's timestamp (`setLastProcessedRunAt` runs
after the status branch, for success and non-success alike), so a later
successful run carrying the same timestamp would NOT be processed. -/
theorem processTriggeredRuns_c1_amended {W : Type} (st : SchedState W)
    (fetch : String → Option CronRunEntry) (handler : String → W → W × String)
    (now : Int) (ref : SchedulerJobRef) (e : CronRunEntry)
    (href : ref ∈ st.jobs) (hf : fetch ref.cronJobId = some e)
    (hnz : effectiveRunAt e ≠ 0) :
    effectiveRunAt e ≤
      getLastProcessedRunAt
        (processTriggeredRuns st fetch handler now).1.lastProcessedRuns ref.key
    ∧ (e.status ≠ some "ok" →
        ({ key := ref.key, cronJobId := ref.cronJobId, runAtMs := effectiveRunAt e }
            : Invocation) ∉
          (processTriggeredRuns st fetch handler now).2.2) := by
  constructor
  · obtain ⟨l1, l2, hsplit⟩ := List.append_of_mem href
    unfold processTriggeredRuns
    rw [hsplit, List.foldl_append, List.foldl_cons]
    set acc1 := l1.foldl (processRunStep fetch handler now) (st, false, []) with hacc1
    have hstep : effectiveRunAt e ≤
        getLastProcessedRunAt
          (processRunStep fetch handler now acc1 ref).1.lastProcessedRuns ref.key := by
      unfold processRunStep
      rw [hf]
      dsimp only
      rw [if_neg (by simpa using hnz)]
      by_cases hle : effectiveRunAt e ≤
          getLastProcessedRunAt acc1.1.lastProcessedRuns ref.key
      · rw [if_pos hle]
        exact hle
      · rw [if_neg hle]
        dsimp only
        rw [getLast_setLast_self]
    exact le_trans hstep (processFold_mono fetch handler now l2 _ ref.key)
  · intro hstatus hmem
    rcases processFold_invoked fetch handler now st.jobs (st, false, [])
        ({ key := ref.key, cronJobId := ref.cronJobId, runAtMs := effectiveRunAt e })
        hmem with hin | ⟨e', hf', hok', heq'⟩
    · simp at hin
    · rw [hf] at hf'
      cases hf'
      exact hstatus hok'

/-- Witness for C1's amended theorem at the counterexample inputs. -/
theorem processTriggeredRuns_c1_amended_witness :
    5 ≤ getLastProcessedRunAt
        (processTriggeredRuns
          { jobs := [{ key := "k", cronJobId := "c", createdAtMs := 0, updatedAtMs := 0 }],
            lastProcessedRuns := [], world := () }
          (fun _ => some { ts := some 5, runAtMs := none, status := some "error" })
          (fun _ w => (w, "")) 7).1.lastProcessedRuns "k"
    ∧ ({ key := "k", cronJobId := "c", runAtMs := 5 } : Invocation) ∉
      (processTriggeredRuns
        { jobs := [{ key := "k", cronJobId := "c", createdAtMs := 0, updatedAtMs := 0 }],
          lastProcessedRuns := [], world := () }
        (fun _ => some { ts := some 5, runAtMs := none, status := some "error" })
        (fun _ w => (w, "")) 7).2.2 := by
  have h := processTriggeredRuns_c1_amended
    { jobs := [{ key := "k", cronJobId := "c", createdAtMs := 0, updatedAtMs := 0 }],
      lastProcessedRuns := [], world := () }
    (fun _ => some { ts := some 5, runAtMs := none, status := some "error" })
    (fun _ w => (w, "")) 7
    { key := "k", cronJobId := "c", createdAtMs := 0, updatedAtMs := 0 }
    { ts := some 5, runAtMs := none, status := some "error" }
    (List.mem_singleton.mpr rfl) rfl (by decide)
  exact ⟨h.1, h.2 (by decide)⟩

end Gtd

namespace Gtd

theorem find?_updateFirst (p : α → Bool) (f : α → α) (l : List α)
    (hpf : ∀ x, p x = true → p (f x) = true) (x : α)
    (hfind : l.find? p = some x) :
    (updateFirst p f l).find? p = some (f x) := by
  induction l with
  | nil => simp [List.find?] at hfind
  | cons hd tl ih =>
      by_cases h : p hd = true
      · rw [List.find?_cons_of_pos _ h] at hfind
        cases hfind
        unfold updateFirst
        rw [if_pos h]
        rw [List.find?_cons_of_pos _ (hpf _ h)]
      · rw [List.find?_cons_of_neg _ (by simpa using h)] at hfind
        unfold updateFirst
        rw [if_neg h]
        rw [List.find?_cons_of_neg _ (by simpa using h)]
        exact ih hfind

/-- C9: the waiting-item follow-up effect.  With the waiting item found
active: (a) a missing delivery target (or blank channel/recipient) sends
nothing, creates a draft-confirmation capture and sets the follow-up time
to now + cadence; (b) a target whose channel/account/recipient key is not
on the auto-send allowlist behaves the same; (c) a successful send
advances the follow-up time by exactly `followupCadenceDays` days from
now; (d) a failed send sets the follow-up time to the fixed 6-hour backoff
instead of the full cadence. -/
theorem runWaitingFollowup_c9 (st : WState) (agentId : String)
    (allowlist : List String) (waitingId : String) (now : Int) (send : SendResult)
    (id1 id2 : String) (w : WaitingItem)
    (hfind : st.waitingFor.find? (waitingMatch waitingId) = some w) :
    ((match w.deliveryTarget with
        | none => true
        | some t => jsTrim t.channel == "" || jsTrim t.toAddr == "") = true →
      (runWaitingFollowup st agentId allowlist waitingId now send id1 id2).2.2 = false
      ∧ (runWaitingFollowup st agentId allowlist waitingId now send id1 id2).1.inboxItems.getLast?
          = some
              { id := id1,
                rawText := jsTrim ("[draft_confirm] " ++ ("Follow-up voor " ++ w.who ++ ": " ++ w.what)),
                source := "scheduler.waiting.draft_confirm", capturedAtMs := now,
                createdAtMs := now, updatedAtMs := now,
                sessionKey := w.deliveryTarget.bind (fun t => t.sessionKey),
                status := "captured" }
      ∧ (runWaitingFollowup st agentId allowlist waitingId now send id1 id2).1.waitingFor.find?
          (waitingMatch waitingId)
          = some { w with followupAtMs := now + w.followupCadenceDays * DAY_MS, updatedAtMs := now })
    ∧ (∀ t, w.deliveryTarget = some t →
        (jsTrim t.channel == "" || jsTrim t.toAddr == "") = false →
        allowlist.contains (buildAutoSendAllowKey t.channel t.accountId t.toAddr) = false →
        (runWaitingFollowup st agentId allowlist waitingId now send id1 id2).2.2 = false
        ∧ (runWaitingFollowup st agentId allowlist waitingId now send id1 id2).1.inboxItems.getLast?
            = some
                { id := id1,
                  rawText := jsTrim ("[draft_confirm] " ++ ("Follow-up voor " ++ w.who ++ ": " ++ w.what) ++ " -> " ++ t.channel ++ ":" ++ t.accountId.getD "" ++ ":" ++ t.toAddr),
                  source := "scheduler.waiting.draft_confirm", capturedAtMs := now,
                  createdAtMs := now, updatedAtMs := now, sessionKey := t.sessionKey,
                  status := "captured" }
        ∧ (runWaitingFollowup st agentId allowlist waitingId now send id1 id2).1.waitingFor.find?
            (waitingMatch waitingId)
            = some { w with followupAtMs := now + w.followupCadenceDays * DAY_MS, updatedAtMs := now })
    ∧ (∀ t, w.deliveryTarget = some t →
        (jsTrim t.channel == "" || jsTrim t.toAddr == "") = false →
        allowlist.contains (buildAutoSendAllowKey t.channel t.accountId t.toAddr) = true →
        send.ok = true →
        (runWaitingFollowup st agentId allowlist waitingId now send id1 id2).2.2 = true
        ∧ (runWaitingFollowup st agentId allowlist waitingId now send id1 id2).1.waitingFor.find?
            (waitingMatch waitingId)
            = some { w with lastFollowupAtMs := some now, followupAtMs := now + w.followupCadenceDays * DAY_MS, updatedAtMs := now })
    ∧ (∀ t, w.deliveryTarget = some t →
        (jsTrim t.channel == "" || jsTrim t.toAddr == "") = false →
        allowlist.contains (buildAutoSendAllowKey t.channel t.accountId t.toAddr) = true →
        send.ok = false →
        (runWaitingFollowup st agentId allowlist waitingId now send id1 id2).2.2 = true
        ∧ (runWaitingFollowup st agentId allowlist waitingId now send id1 id2).1.inboxItems.getLast?
            = some
                { id := id1,
                  rawText := jsTrim ("[followup_send_error] " ++ ("Follow-up voor " ++ w.who ++ ": " ++ w.what) ++ " error=" ++ (send.error).getD "unknown"),
                  source := "scheduler.waiting.send_error", capturedAtMs := now,
                  createdAtMs := now, updatedAtMs := now, sessionKey := t.sessionKey,
                  status := "captured" }
        ∧ (runWaitingFollowup st agentId allowlist waitingId now send id1 id2).1.waitingFor.find?
            (waitingMatch waitingId)
            = some { w with followupAtMs := now + 6 * 60 * 60 * 1000, updatedAtMs := now }) := by
  have hpf : ∀ (f : WaitingItem → WaitingItem),
      (∀ y, (f y).id = y.id ∧ (f y).status = y.status) →
      ∀ x, waitingMatch waitingId x = true → waitingMatch waitingId (f x) = true := by
    intro f hf x hx
    unfold waitingMatch at *
    rcases hf x with ⟨h1, h2⟩
    rw [h1, h2]
    exact hx
  constructor
  · intro hmiss
    unfold runWaitingFollowup
    rw [hfind]
    dsimp only
    rw [if_pos hmiss]
    refine ⟨rfl, ?_, ?_⟩
    · simp [capture, addCommitment, List.getLast?_concat]
    · dsimp only [capture, addCommitment]
      exact find?_updateFirst (waitingMatch waitingId)
        (fun y => { y with followupAtMs := now + w.followupCadenceDays * DAY_MS, updatedAtMs := now })
        st.waitingFor (hpf _ (fun y => ⟨rfl, rfl⟩)) w hfind
  refine ⟨?_, ?_, ?_⟩
  · intro t ht hne hallow
    unfold runWaitingFollowup
    rw [hfind]
    dsimp only
    rw [ht]
    rw [if_neg (by simp only [ht]; simp [hne])]
    dsimp only
    rw [if_pos (by rw [hallow]; rfl)]
    refine ⟨rfl, ?_, ?_⟩
    · simp [capture, addCommitment, List.getLast?_concat]
    · dsimp only [capture, addCommitment]
      rw [← ht]
      exact find?_updateFirst (waitingMatch waitingId)
        (fun y => { y with followupAtMs := now + w.followupCadenceDays * DAY_MS, updatedAtMs := now })
        st.waitingFor (hpf _ (fun y => ⟨rfl, rfl⟩)) w hfind
  · intro t ht hne hallow hok
    unfold runWaitingFollowup
    rw [hfind]
    dsimp only
    rw [ht]
    rw [if_neg (by simp only [ht]; simp [hne])]
    dsimp only
    rw [if_neg (by rw [hallow]; simp)]
    rw [if_neg (by rw [hok]; simp)]
    refine ⟨rfl, ?_⟩
    rw [← ht]
    exact find?_updateFirst (waitingMatch waitingId)
      (fun y => { y with lastFollowupAtMs := some now, followupAtMs := now + w.followupCadenceDays * DAY_MS, updatedAtMs := now })
      st.waitingFor (hpf _ (fun y => ⟨rfl, rfl⟩)) w hfind
  · intro t ht hne hallow hok
    unfold runWaitingFollowup
    rw [hfind]
    dsimp only
    rw [ht]
    rw [if_neg (by simp only [ht]; simp [hne])]
    dsimp only
    rw [if_neg (by rw [hallow]; simp)]
    rw [if_pos (by rw [hok]; rfl)]
    refine ⟨rfl, ?_, ?_⟩
    · simp [capture, List.getLast?_concat]
    · dsimp only [capture]
      rw [← ht]
      exact find?_updateFirst (waitingMatch waitingId)
        (fun y => { y with followupAtMs := now + 6 * 60 * 60 * 1000, updatedAtMs := now })
        st.waitingFor (hpf _ (fun y => ⟨rfl, rfl⟩)) w hfind

end Gtd

namespace Gtd

/-- Witness for C9 at a concrete state: an active waiting item without a
delivery target gets a draft-confirmation capture, no send, and a
follow-up pushed out by its cadence. -/
theorem runWaitingFollowup_c9_witness :
    (runWaitingFollowup { waitingFor := [{ id := "w1", who := "Bob", what := "report", sinceMs := 0, followupAtMs := 10, followupCadenceDays := 3, deliveryTarget := none, status := "active", lastFollowupAtMs := none, createdAtMs := 0, updatedAtMs := 0 }], inboxItems := [], commitments := [], updatedAtMs := 0 } "main" [] "w1" 100 { ok := true, error := none } "i1" "i2").2.2 = false
    ∧ (runWaitingFollowup { waitingFor := [{ id := "w1", who := "Bob", what := "report", sinceMs := 0, followupAtMs := 10, followupCadenceDays := 3, deliveryTarget := none, status := "active", lastFollowupAtMs := none, createdAtMs := 0, updatedAtMs := 0 }], inboxItems := [], commitments := [], updatedAtMs := 0 } "main" [] "w1" 100 { ok := true, error := none } "i1" "i2").1.waitingFor.find? (waitingMatch "w1")
        = some { id := "w1", who := "Bob", what := "report", sinceMs := 0, followupAtMs := 100 + 3 * DAY_MS, followupCadenceDays := 3, deliveryTarget := none, status := "active", lastFollowupAtMs := none, createdAtMs := 0, updatedAtMs := 100 } := by
  have h := (runWaitingFollowup_c9 { waitingFor := [{ id := "w1", who := "Bob", what := "report", sinceMs := 0, followupAtMs := 10, followupCadenceDays := 3, deliveryTarget := none, status := "active", lastFollowupAtMs := none, createdAtMs := 0, updatedAtMs := 0 }], inboxItems := [], commitments := [], updatedAtMs := 0 } "main" [] "w1" 100 { ok := true, error := none } "i1" "i2" { id := "w1", who := "Bob", what := "report", sinceMs := 0, followupAtMs := 10, followupCadenceDays := 3, deliveryTarget := none, status := "active", lastFollowupAtMs := none, createdAtMs := 0, updatedAtMs := 0 } (by rfl)).1 (by rfl)
  exact ⟨h.1, h.2.2⟩

end Gtd


namespace HardStop

theorem trace_split_order (A P : List Event) (sk rsn : String) (ms : Int)
    (hA : ∀ e ∈ A, ∃ p, e = Event.sigterm p)
    (hP : ∀ e ∈ P, ∀ p, e ≠ Event.sigterm p) :
    ((A ++ [Event.cancelScope sk rsn, Event.escalationWait ms]) ++ P)[A.length + 1]? =
        some (Event.escalationWait ms)
    ∧ (∀ i, i < A.length →
        ((A ++ [Event.cancelScope sk rsn, Event.escalationWait ms]) ++ P)[i]? = A[i]?)
    ∧ ((A ++ [Event.cancelScope sk rsn, Event.escalationWait ms]) ++ P)[A.length]? =
        some (Event.cancelScope sk rsn)
    ∧ (∀ i p,
        ((A ++ [Event.cancelScope sk rsn, Event.escalationWait ms]) ++ P)[i]? =
          some (Event.sigterm p) → i < A.length + 1)
    ∧ (∀ j p,
        ((A ++ [Event.cancelScope sk rsn, Event.escalationWait ms]) ++ P)[j]? =
          some (Event.forceKill p) → A.length + 1 < j) := by
  have hXlen : (A ++ [Event.cancelScope sk rsn, Event.escalationWait ms]).length =
      A.length + 2 := by simp
  have h1 : ((A ++ [Event.cancelScope sk rsn, Event.escalationWait ms]) ++ P)[A.length + 1]? =
      some (Event.escalationWait ms) := by
    rw [List.getElem?_append_left (by omega)]
    rw [List.getElem?_append_right (by omega)]
    simp
  have h2 : ∀ i, i < A.length →
      ((A ++ [Event.cancelScope sk rsn, Event.escalationWait ms]) ++ P)[i]? = A[i]? := by
    intro i hi
    rw [List.getElem?_append_left (by omega)]
    rw [List.getElem?_append_left hi]
  have h3 : ((A ++ [Event.cancelScope sk rsn, Event.escalationWait ms]) ++ P)[A.length]? =
      some (Event.cancelScope sk rsn) := by
    rw [List.getElem?_append_left (by omega)]
    rw [List.getElem?_append_right (by omega)]
    simp
  refine ⟨h1, h2, h3, ?_, ?_⟩
  · intro i p h
    by_contra hge
    push_neg at hge
    rcases Nat.lt_or_ge i (A.length + 2) with hlt | hbig
    · have : i = A.length + 1 := by omega
      subst this
      rw [h1] at h
      exact Event.noConfusion (Option.some.inj h)
    · rw [List.getElem?_append_right (by omega)] at h
      have hmem : Event.sigterm p ∈ P := by
        have := List.getElem?_eq_some.mp h
        obtain ⟨hlt, hv⟩ := this
        exact hv ▸ List.getElem_mem _
      exact hP _ hmem p rfl
  · intro j p h
    by_contra hle
    push_neg at hle
    rcases Nat.lt_or_ge j A.length with hlt | hge
    · rw [h2 j hlt] at h
      have hmem : Event.forceKill p ∈ A := by
        have := List.getElem?_eq_some.mp h
        obtain ⟨hl, hv⟩ := this
        exact hv ▸ List.getElem_mem _
      obtain ⟨q, hq⟩ := hA _ hmem
      exact Event.noConfusion hq
    · rcases Nat.eq_or_lt_of_le hge with heq | hgt
      · rw [heq] at h3
        rw [h3] at h
        exact Event.noConfusion (Option.some.inj h)
      · have : j = A.length + 1 := by omega
        subst this
        rw [h1] at h
        exact Event.noConfusion (Option.some.inj h)

/-- C6: within one `hardStopProcessScope` invocation, the SIGTERM delivery
to every live scope-matching process (with a valid pid) and the
supervisor's cooperative `cancelScope` both happen strictly before the
escalation wait, and the wait happens strictly before every forceful kill
of still-registered processes; this ordering holds for every input. -/
theorem hardStopProcessScope_c6 (reg : Registry) (scopeKey : String)
    (escalationMs : Int) (envKill : Registry → Registry) :
    ∃ k : Nat,
      ((hardStopProcessScope reg scopeKey escalationMs envKill).2.2)[k]? =
          some (Event.escalationWait escalationMs)
      ∧ (∀ s ∈ activeScopedSessions scopeKey reg, hasValidPid s = true →
          ∃ i, i < k ∧
            ((hardStopProcessScope reg scopeKey escalationMs envKill).2.2)[i]? =
              some (Event.sigterm (s.pid.getD 0)))
      ∧ (∃ c, c < k ∧
          ((hardStopProcessScope reg scopeKey escalationMs envKill).2.2)[c]? =
            some (Event.cancelScope scopeKey "manual-cancel"))
      ∧ (∀ i p,
          ((hardStopProcessScope reg scopeKey escalationMs envKill).2.2)[i]? =
            some (Event.sigterm p) → i < k)
      ∧ (∀ j p,
          ((hardStopProcessScope reg scopeKey escalationMs envKill).2.2)[j]? =
            some (Event.forceKill p) → k < j) := by
  have htr : (hardStopProcessScope reg scopeKey escalationMs envKill).2.2 =
      (((activeScopedSessions scopeKey reg).filter hasValidPid).map
          (fun s => Event.sigterm (s.pid.getD 0))
        ++ [Event.cancelScope scopeKey "manual-cancel", Event.escalationWait escalationMs])
      ++ (activeScopedSessions scopeKey (envKill reg)).flatMap
          (fun s => (if hasValidPid s then [Event.forceKill (s.pid.getD 0)] else [])
            ++ [Event.exited s.eid]) := by
    unfold hardStopProcessScope
    rfl
  have hA : ∀ e ∈ ((activeScopedSessions scopeKey reg).filter hasValidPid).map
      (fun s => Event.sigterm (s.pid.getD 0)), ∃ p, e = Event.sigterm p := by
    intro e he
    simp only [List.mem_map] at he
    obtain ⟨s, _, he⟩ := he
    exact ⟨s.pid.getD 0, he.symm⟩
  have hP : ∀ e ∈ (activeScopedSessions scopeKey (envKill reg)).flatMap
      (fun s => (if hasValidPid s then [Event.forceKill (s.pid.getD 0)] else [])
        ++ [Event.exited s.eid]), ∀ p, e ≠ Event.sigterm p := by
    intro e he p
    simp only [List.mem_flatMap] at he
    obtain ⟨s, _, he⟩ := he
    rcases List.mem_append.mp he with h | h
    · by_cases hv : hasValidPid s = true
      · rw [if_pos hv] at h
        simp only [List.mem_singleton] at h
        subst h
        exact fun hcontra => Event.noConfusion hcontra
      · rw [if_neg hv] at h
        simp at h
    · simp only [List.mem_singleton] at h
      subst h
      exact fun hcontra => Event.noConfusion hcontra
  obtain ⟨h1, h2, h3, h4, h5⟩ := trace_split_order _ _ scopeKey "manual-cancel" escalationMs hA hP
  refine ⟨(((activeScopedSessions scopeKey reg).filter hasValidPid).map
      (fun s => Event.sigterm (s.pid.getD 0))).length + 1, ?_, ?_, ?_, ?_, ?_⟩
  · rw [htr]; exact h1
  · intro s hs hv
    have hmemT : s ∈ (activeScopedSessions scopeKey reg).filter hasValidPid :=
      List.mem_filter.mpr ⟨hs, hv⟩
    obtain ⟨i, hilt, hival⟩ := List.mem_iff_getElem.mp hmemT
    refine ⟨i, by simp; omega, ?_⟩
    rw [htr, h2 i (by simpa using hilt)]
    rw [List.getElem?_map]
    rw [List.getElem?_eq_getElem hilt, hival]
    rfl
  · refine ⟨(((activeScopedSessions scopeKey reg).filter hasValidPid).map
        (fun s => Event.sigterm (s.pid.getD 0))).length, by omega, ?_⟩
    rw [htr]; exact h3
  · intro i p h
    rw [htr] at h
    exact h4 i p h
  · intro j p h
    rw [htr] at h
    exact h5 j p h

/-- Witness for C6 at a concrete registry: one live process with pid 42 in
scope `s`, with an identity wait-time environment. -/
theorem hardStopProcessScope_c6_witness :
    ∃ k : Nat,
      ((hardStopProcessScope [{ eid := 0, pid := some 42, scopeKey := "s", live := true }]
          "s" 150 id).2.2)[k]? = some (Event.escalationWait 150)
      ∧ (∀ s ∈ activeScopedSessions "s"
            [{ eid := 0, pid := some 42, scopeKey := "s", live := true }],
          hasValidPid s = true →
          ∃ i, i < k ∧
            ((hardStopProcessScope [{ eid := 0, pid := some 42, scopeKey := "s", live := true }]
                "s" 150 id).2.2)[i]? = some (Event.sigterm (s.pid.getD 0)))
      ∧ (∃ c, c < k ∧
          ((hardStopProcessScope [{ eid := 0, pid := some 42, scopeKey := "s", live := true }]
              "s" 150 id).2.2)[c]? = some (Event.cancelScope "s" "manual-cancel"))
      ∧ (∀ i p,
          ((hardStopProcessScope [{ eid := 0, pid := some 42, scopeKey := "s", live := true }]
              "s" 150 id).2.2)[i]? = some (Event.sigterm p) → i < k)
      ∧ (∀ j p,
          ((hardStopProcessScope [{ eid := 0, pid := some 42, scopeKey := "s", live := true }]
              "s" 150 id).2.2)[j]? = some (Event.forceKill p) → k < j) :=
  hardStopProcessScope_c6 [{ eid := 0, pid := some 42, scopeKey := "s", live := true }] "s" 150 id

end HardStop

namespace HardStop

theorem shrinks_refl (e : ProcEntry) : Shrinks e e :=
  ⟨rfl, rfl, rfl, fun h => h⟩

theorem regShrinks_refl (r : Registry) : RegShrinks r r := by
  induction r with
  | nil => exact List.Forall₂.nil
  | cons hd tl ih => exact List.Forall₂.cons (shrinks_refl hd) ih

theorem shrinks_trans {a b c : ProcEntry} (h1 : Shrinks a b) (h2 : Shrinks b c) :
    Shrinks a c :=
  ⟨h2.1.trans h1.1, h2.2.1.trans h1.2.1, h2.2.2.1.trans h1.2.2.1,
    fun h => h1.2.2.2 (h2.2.2.2 h)⟩

theorem regShrinks_trans {r1 r2 r3 : Registry} (h1 : RegShrinks r1 r2)
    (h2 : RegShrinks r2 r3) : RegShrinks r1 r3 := by
  induction h1 generalizing r3 with
  | nil =>
      cases h2
      exact List.Forall₂.nil
  | cons hab hrest ih =>
      cases h2 with
      | cons hbc hrest2 =>
          exact List.Forall₂.cons (shrinks_trans hab hbc) (ih hrest2)

theorem markExited_length (r : Registry) (eid : Nat) :
    (markExited r eid).length = r.length :=
  List.length_map _ _

theorem foldl_markExited_length (L : List ProcEntry) (r : Registry) :
    (L.foldl (fun acc s => markExited acc s.eid) r).length = r.length := by
  induction L generalizing r with
  | nil => rfl
  | cons hd tl ih =>
      simp only [List.foldl_cons]
      rw [ih, markExited_length]

theorem markExited_getElem (r : Registry) (eid : Nat) (i : Nat) (h : i < r.length)
    (h2 : i < (markExited r eid).length) :
    (markExited r eid)[i] =
      if r[i].eid == eid then { r[i] with live := false } else r[i] := by
  simp [markExited]

theorem foldl_markExited_getElem (L : List ProcEntry) (r : Registry) (i : Nat)
    (h : i < r.length)
    (h2 : i < (L.foldl (fun acc s => markExited acc s.eid) r).length) :
    (L.foldl (fun acc s => markExited acc s.eid) r)[i] =
      if L.any (fun s => s.eid == r[i].eid) then { r[i] with live := false } else r[i] := by
  induction L generalizing r with
  | nil => simp
  | cons hd tl ih =>
      simp only [List.foldl_cons, List.any_cons]
      have hlen : i < (markExited r hd.eid).length := by rw [markExited_length]; exact h
      have hlen2 : i <
          (tl.foldl (fun acc s => markExited acc s.eid) (markExited r hd.eid)).length := by
        rw [foldl_markExited_length]; exact hlen
      have hstep := markExited_getElem r hd.eid i h hlen
      have := ih (markExited r hd.eid) hlen hlen2
      rw [this]
      rw [hstep]
      by_cases hh : (r[i].eid == hd.eid) = true
      · rw [if_pos hh]
        have heid : ({ r[i] with live := false } : ProcEntry).eid = r[i].eid := rfl
        rw [heid]
        have hbe : (hd.eid == r[i].eid) = true := by
          simp only [beq_iff_eq] at hh ⊢
          exact hh.symm
        rw [hbe]
        simp
      · rw [if_neg hh]
        have hbe : (hd.eid == r[i].eid) = false := by
          simp only [beq_eq_false_iff_ne] at hh ⊢
          simp only [beq_iff_eq] at hh
          exact fun hcontra => hh (by simp [hcontra])
        rw [hbe]
        simp

theorem countP_le_forall₂ {R : ProcEntry → ProcEntry → Prop}
    (p q : ProcEntry → Bool) (himp : ∀ a b, R a b → p b = true → q a = true) :
    ∀ {r r' : Registry}, List.Forall₂ R r r' → r'.countP p ≤ r.countP q := by
  intro r r' h
  induction h with
  | nil => simp
  | cons hab hrest ih =>
      rename_i a b l1 l2
      rw [List.countP_cons, List.countP_cons]
      by_cases hp : p b = true
      · rw [himp a b hab hp]
        simp only [hp]
        omega
      · have : (p b = true) = False := by simp [hp]
        simp only [this, if_false]
        have h2 : (if q a = true then 1 else 0) ≥ 0 := Nat.zero_le _
        omega

theorem countP_disjoint_le (l : Registry) (p1 p2 p3 : ProcEntry → Bool)
    (h1 : ∀ e, p1 e = true → p3 e = true) (h2 : ∀ e, p2 e = true → p3 e = true)
    (hd : ∀ e, ¬(p1 e = true ∧ p2 e = true)) :
    l.countP p1 + l.countP p2 ≤ l.countP p3 := by
  induction l with
  | nil => simp
  | cons hd' tl ih =>
      rw [List.countP_cons, List.countP_cons, List.countP_cons]
      by_cases hp1 : p1 hd' = true
      · have hp3 := h1 _ hp1
        have hp2 : ¬p2 hd' = true := fun hc => hd hd' ⟨hp1, hc⟩
        simp only [hp1, hp3, if_true]
        have : (p2 hd' = true) = False := by simp [hp2]
        simp only [this, if_false]
        omega
      · have : (p1 hd' = true) = False := by simp [hp1]
        simp only [this, if_false]
        by_cases hp2 : p2 hd' = true
        · have hp3 := h2 _ hp2
          simp only [hp2, hp3, if_true]
          omega
        · have h4 : (p2 hd' = true) = False := by simp [hp2]
          simp only [h4, if_false]
          have h5 : (if p3 hd' = true then 1 else 0) ≥ 0 := Nat.zero_le _
          omega

end HardStop

namespace HardStop

theorem forall₂_compose {R S T : ProcEntry → ProcEntry → Prop}
    (h : ∀ a b c, R a b → S b c → T a c) :
    ∀ {r1 r2 r3 : Registry}, List.Forall₂ R r1 r2 → List.Forall₂ S r2 r3 →
      List.Forall₂ T r1 r3 := by
  intro r1 r2 r3 h1
  induction h1 generalizing r3 with
  | nil =>
      intro h2
      cases h2
      exact List.Forall₂.nil
  | cons hab hrest ih =>
      intro h2
      cases h2 with
      | cons hbc hrest2 => exact List.Forall₂.cons (h _ _ _ hab hbc) (ih hrest2)

theorem forall₂_imp_mem {R S : ProcEntry → ProcEntry → Prop} :
    ∀ {r r' : Registry}, List.Forall₂ R r r' → (∀ a b, R a b → b ∈ r' → S a b) →
      List.Forall₂ S r r' := by
  intro r r' h
  induction h with
  | nil => intro _; exact List.Forall₂.nil
  | cons hab hrest ih =>
      intro himp
      refine List.Forall₂.cons (himp _ _ hab (List.mem_cons_self _ _)) (ih ?_)
      intro a b hr hb
      exact himp a b hr (List.mem_cons_of_mem _ hb)

theorem forall₂_map_self {R : ProcEntry → ProcEntry → Prop} (f : ProcEntry → ProcEntry)
    (hf : ∀ a, R a (f a)) (r : Registry) : List.Forall₂ R r (r.map f) := by
  induction r with
  | nil => exact List.Forall₂.nil
  | cons hd tl ih => exact List.Forall₂.cons (hf hd) ih

theorem foldl_markExited_forall₂ (L : List ProcEntry) (r : Registry) :
    List.Forall₂ (fun a b => b = a ∨ b = { a with live := false }) r
      (L.foldl (fun acc s => markExited acc s.eid) r) := by
  induction L generalizing r with
  | nil =>
      induction r with
      | nil => exact List.Forall₂.nil
      | cons hd tl ih => exact List.Forall₂.cons (Or.inl rfl) ih
  | cons hd tl ih =>
      simp only [List.foldl_cons]
      have hmap : List.Forall₂ (fun a b => b = a ∨ b = { a with live := false }) r
          (markExited r hd.eid) := by
        unfold markExited
        refine forall₂_map_self _ ?_ r
        intro a
        by_cases hh : (a.eid == hd.eid) = true
        · right
          simp only [hh, if_true]
        · left
          simp only [hh, Bool.false_eq_true, if_false]
      have hrest := ih (markExited r hd.eid)
      refine forall₂_compose ?_ hmap hrest
      intro a b c hab hbc
      rcases hab with hb | hb
      · subst hb
        exact hbc
      · subst hb
        rcases hbc with hc | hc
        · subst hc; exact Or.inr rfl
        · subst hc; exact Or.inr rfl

theorem updateRel_shrinks (a b : ProcEntry)
    (h : b = a ∨ b = { a with live := false }) : Shrinks a b := by
  rcases h with h | h
  · subst h; exact shrinks_refl _
  · subst h
    exact ⟨rfl, rfl, rfl, fun hc => by simp at hc⟩

theorem hardStopProcessScope_props (reg : Registry) (scopeKey : String)
    (escalationMs : Int) (envKill : Registry → Registry)
    (henv : EnvKillOnly envKill) :
    RegShrinks reg (hardStopProcessScope reg scopeKey escalationMs envKill).2.1
    ∧ (∀ e ∈ (hardStopProcessScope reg scopeKey escalationMs envKill).2.1,
        e.scopeKey = scopeKey → e.live = false)
    ∧ (∀ q : String → Bool,
        (hardStopProcessScope reg scopeKey escalationMs envKill).1.forceKilled +
            cntLive q (hardStopProcessScope reg scopeKey escalationMs envKill).2.1 ≤
          cntLive (fun sc => sc == scopeKey || q sc) reg) := by
  have henv2 : RegShrinks reg (envKill reg) := henv reg
  have hrem : (hardStopProcessScope reg scopeKey escalationMs envKill).2.1 =
      (activeScopedSessions scopeKey (envKill reg)).foldl
        (fun r s => markExited r s.eid) (envKill reg) := by
    unfold hardStopProcessScope
    rfl
  have hfk : (hardStopProcessScope reg scopeKey escalationMs envKill).1.forceKilled =
      ((activeScopedSessions scopeKey (envKill reg)).filter hasValidPid).length := by
    unfold hardStopProcessScope
    rfl
  have hupd := foldl_markExited_forall₂ (activeScopedSessions scopeKey (envKill reg))
    (envKill reg)
  have hshrink2 : RegShrinks (envKill reg)
      (hardStopProcessScope reg scopeKey escalationMs envKill).2.1 := by
    rw [hrem]
    exact hupd.imp (fun a b hab => updateRel_shrinks a b hab)
  have hdead : ∀ e ∈ (hardStopProcessScope reg scopeKey escalationMs envKill).2.1,
      e.scopeKey = scopeKey → e.live = false := by
    intro e he hscope
    by_contra hlive
    have hlive' : e.live = true := by
      cases hl : e.live
      · exact absurd hl hlive
      · rfl
    rw [hrem] at he
    obtain ⟨i, hi, hival⟩ := List.mem_iff_getElem.mp he
    have hlen : i < (envKill reg).length := by
      rw [foldl_markExited_length] at hi
      exact hi
    have hchar := foldl_markExited_getElem (activeScopedSessions scopeKey (envKill reg))
      (envKill reg) i hlen hi
    by_cases hmark : ((activeScopedSessions scopeKey (envKill reg)).any
        (fun s => s.eid == ((envKill reg)[i]).eid)) = true
    · rw [if_pos hmark] at hchar
      rw [hchar] at hival
      rw [← hival] at hlive'
      simp at hlive'
    · rw [if_neg hmark] at hchar
      rw [hchar] at hival
      have hmem2 : (envKill reg)[i] ∈ activeScopedSessions scopeKey (envKill reg) := by
        unfold activeScopedSessions listRunningSessions
        refine List.mem_filter.mpr ⟨List.mem_filter.mpr ⟨List.getElem_mem _, ?_⟩, ?_⟩
        · rw [hival]; exact hlive'
        · rw [hival]
          simp [hscope]
      exact hmark (List.any_eq_true.mpr ⟨_, hmem2, by simp⟩)
  refine ⟨regShrinks_trans henv2 hshrink2, hdead, ?_⟩
  intro q
  have hS : List.Forall₂
      (fun a b => (b = a ∨ b = { a with live := false })
        ∧ (b.live = true → (b.scopeKey == scopeKey) = false))
      (envKill reg) (hardStopProcessScope reg scopeKey escalationMs envKill).2.1 := by
    rw [hrem]
    refine forall₂_imp_mem hupd ?_
    intro a b hab hb
    refine ⟨hab, ?_⟩
    intro hlive
    have := hdead b (by rw [hrem]; exact hb)
    by_cases hsc : b.scopeKey = scopeKey
    · rw [this hsc] at hlive
      exact absurd hlive (by simp)
    · simp [hsc]
  have hcnt1 : cntLive q (hardStopProcessScope reg scopeKey escalationMs envKill).2.1 ≤
      (envKill reg).countP
        (fun e => e.live && q e.scopeKey && !(e.scopeKey == scopeKey)) := by
    unfold cntLive
    refine countP_le_forall₂ _ _ ?_ hS
    intro a b hab hp
    simp only [Bool.and_eq_true] at hp
    obtain ⟨hrel, hnos⟩ := hab
    have hshr := updateRel_shrinks a b hrel
    have hsc : b.scopeKey = a.scopeKey := hshr.2.2.1
    have halive : a.live = true := hshr.2.2.2 hp.1
    have hnosc := hnos hp.1
    rw [hsc] at hnosc
    simp only [Bool.and_eq_true]
    refine ⟨⟨halive, ?_⟩, ?_⟩
    · rw [← hsc]; exact hp.2
    · rw [hnosc]; rfl
  have hcnt2 : (hardStopProcessScope reg scopeKey escalationMs envKill).1.forceKilled ≤
      (envKill reg).countP (fun e => e.live && (e.scopeKey == scopeKey)) := by
    rw [hfk]
    calc ((activeScopedSessions scopeKey (envKill reg)).filter hasValidPid).length
        ≤ (activeScopedSessions scopeKey (envKill reg)).length :=
          List.length_filter_le _ _
      _ = (envKill reg).countP (fun e => e.live && (e.scopeKey == scopeKey)) := by
          unfold activeScopedSessions listRunningSessions
          rw [List.filter_filter]
          rw [← List.countP_eq_length_filter]
          exact List.countP_congr (fun a _ => by rw [Bool.and_comm])
  have hsum : (envKill reg).countP (fun e => e.live && (e.scopeKey == scopeKey)) +
      (envKill reg).countP
        (fun e => e.live && q e.scopeKey && !(e.scopeKey == scopeKey)) ≤
      (envKill reg).countP
        (fun e => e.live && ((e.scopeKey == scopeKey) || q e.scopeKey)) := by
    refine countP_disjoint_le _ _ _ _ ?_ ?_ ?_
    · intro e he
      simp only [Bool.and_eq_true, Bool.or_eq_true] at he ⊢
      exact ⟨he.1, Or.inl he.2⟩
    · intro e he
      simp only [Bool.and_eq_true, Bool.or_eq_true] at he ⊢
      exact ⟨he.1.1, Or.inr he.1.2⟩
    · intro e ⟨h1, h2⟩
      simp only [Bool.and_eq_true] at h1 h2
      rw [h1.2] at h2
      simp at h2
  have hcnt3 : (envKill reg).countP
      (fun e => e.live && ((e.scopeKey == scopeKey) || q e.scopeKey)) ≤
      cntLive (fun sc => sc == scopeKey || q sc) reg := by
    unfold cntLive
    refine countP_le_forall₂ _ _ ?_ henv2
    intro a b hab hp
    simp only [Bool.and_eq_true, Bool.or_eq_true] at hp ⊢
    have hsc : b.scopeKey = a.scopeKey := hab.2.2.1
    refine ⟨hab.2.2.2 hp.1, ?_⟩
    rw [← hsc]
    exact hp.2
  omega

end HardStop

namespace HardStop

theorem dead_pred_preserved {r r' : Registry} (h : RegShrinks r r')
    (P : String → Bool) (hdead : ∀ e ∈ r, P e.scopeKey = true → e.live = false) :
    ∀ e ∈ r', P e.scopeKey = true → e.live = false := by
  induction h with
  | nil => intro e he; simp at he
  | cons hab hrest ih =>
      rename_i a b l1 l2
      intro e he hp
      rcases List.mem_cons.mp he with heq | hin
      · subst heq
        have hsc : e.scopeKey = a.scopeKey := hab.2.2.1
        cases hl : e.live
        · rfl
        · have halive := hab.2.2.2 hl
          have := hdead a (List.mem_cons_self _ _) (by rw [← hsc]; exact hp)
          rw [this] at halive
          exact halive.symm
      · exact ih (fun x hx => hdead x (List.mem_cons_of_mem _ hx)) e hin hp

theorem cntLive_congr (p p' : String → Bool) (r : Registry)
    (h : ∀ sc, p sc = p' sc) : cntLive p r = cntLive p' r := by
  unfold cntLive
  exact List.countP_congr (fun e _ => by rw [h])

theorem cntLive_false (r : Registry) : cntLive (fun _ => false) r = 0 := by
  unfold cntLive
  induction r with
  | nil => rfl
  | cons hd tl ih => rw [List.countP_cons]; simp [ih]

theorem childLoop_props (resolve : String → Option String) (abortR : String → Bool)
    (ms : Int) (envKill : Nat → Registry → Registry)
    (henv : ∀ n, EnvKillOnly (envKill n)) :
    ∀ (keys : List String) (i : Nat) (reg : Registry),
      RegShrinks reg (childLoop resolve abortR ms envKill keys i reg).1
      ∧ (∀ e ∈ (childLoop resolve abortR ms envKill keys i reg).1,
          keys.contains e.scopeKey = true → e.live = false)
      ∧ (∀ q : String → Bool,
          (childLoop resolve abortR ms envKill keys i reg).2.2.2.2.1 +
              cntLive q (childLoop resolve abortR ms envKill keys i reg).1 ≤
            cntLive (fun sc => keys.contains sc || q sc) reg) := by
  intro keys
  induction keys with
  | nil =>
      intro i reg
      refine ⟨regShrinks_refl reg, ?_, ?_⟩
      · intro e he hc
        simp at hc
      · intro q
        unfold childLoop
        have : cntLive (fun sc => List.contains [] sc || q sc) reg = cntLive q reg :=
          cntLive_congr _ _ _ (fun sc => by simp)
        rw [this]
        simp
  | cons k rest ih =>
      intro i reg
      have hscope := hardStopProcessScope_props reg k ms (envKill i) (henv i)
      have hihall := ih (i + 1) (hardStopProcessScope reg k ms (envKill i)).2.1
      have hres : childLoop resolve abortR ms envKill (k :: rest) i reg =
          (let scopeRes := hardStopProcessScope reg k ms (envKill i)
           let rest' := childLoop resolve abortR ms envKill rest (i + 1) scopeRes.2.1
           (rest'.1,
            (match resolve k with
              | some cid => if abortR cid then 1 else 0
              | none => 0) + rest'.2.1,
            scopeRes.1.observed + rest'.2.2.1,
            scopeRes.1.sigtermRequested + rest'.2.2.2.1,
            scopeRes.1.forceKilled + rest'.2.2.2.2.1,
            scopeRes.1.remaining + rest'.2.2.2.2.2.1,
            scopeRes.2.2 ++ rest'.2.2.2.2.2.2)) := by
        rfl
      rw [hres]
      dsimp only
      refine ⟨regShrinks_trans hscope.1 hihall.1, ?_, ?_⟩
      · intro e he hc
        rw [List.contains_cons] at hc
        rcases Bool.or_eq_true _ _ |>.mp hc with hk | hr
        · refine dead_pred_preserved hihall.1 (fun sc => sc == k) ?_ e he hk
          intro x hx hxk
          exact hscope.2.1 x hx (by simpa using hxk)
        · exact hihall.2.1 e he hr
      · intro q
        have h1 := hscope.2.2 (fun sc => rest.contains sc || q sc)
        have h2 := hihall.2.2 q
        have hcongr : cntLive (fun sc => sc == k || (rest.contains sc || q sc)) reg =
            cntLive (fun sc => (k :: rest).contains sc || q sc) reg := by
          refine cntLive_congr _ _ _ (fun sc => ?_)
          rw [List.contains_cons]
          rw [Bool.or_assoc]
        omega

theorem markSub_le_one (sub : SubRegistry) (runId : String) (now : Int) :
    (markSubagentRunTerminated sub runId now).2 ≤ 1 := by
  unfold markSubagentRunTerminated
  split
  · exact le_refl 1
  · exact Nat.zero_le 1

theorem subTermFold_le (now : Int) :
    ∀ (L : List DescendantRun) (acc : SubRegistry × Nat),
      (L.foldl
        (fun (acc : SubRegistry × Nat) entry =>
          if entry.endedAt.isSome then acc
          else
            ((markSubagentRunTerminated acc.1 entry.runId now).1,
              acc.2 + (markSubagentRunTerminated acc.1 entry.runId now).2))
        acc).2 ≤
      acc.2 + (L.filter (fun e => e.endedAt == none)).length := by
  intro L
  induction L with
  | nil => intro acc; simp
  | cons e L ih =>
      intro acc
      simp only [List.foldl_cons]
      by_cases he : e.endedAt.isSome = true
      · rw [if_pos he]
        have hkeep : (e.endedAt == none) = false := by
          obtain ⟨v, hv⟩ := Option.isSome_iff_exists.mp he
          rw [hv]
          rfl
        rw [List.filter_cons_of_neg (by simp [hkeep])]
        exact ih acc
      · rw [if_neg he]
        have hkeep : (e.endedAt == none) = true := by
          cases hv : e.endedAt with
          | none => rfl
          | some v => rw [hv] at he; simp at he
        rw [List.filter_cons_of_pos (by simp [hkeep])]
        have := ih ((markSubagentRunTerminated acc.1 e.runId now).1,
          acc.2 + (markSubagentRunTerminated acc.1 e.runId now).2)
        have hone := markSub_le_one acc.1 e.runId now
        simp only [List.length_cons]
        omega

end HardStop

namespace HardStop

/-- C5: for a session with `N` live registered processes under its own
scope or any of its descendants' child-session scopes, and `M` active
(endedAt unset) sub-agent runs requested by it, `hardStopSessionExecution`
force-kills at most `N` processes in total (root plus sub-agent scopes),
terminates at most `M` sub-agent runs, and leaves no live registry entry
under the session's scope key or any descendant child session key.  The
wait-time environments are assumed to only let processes exit
(`EnvKillOnly`): nothing spawns or revives concurrently. -/
theorem hardStopSessionExecution_c5 (reg : Registry) (sub : SubRegistry)
    (resolve : String → Option String) (clearQ : String → Option String → QueueResult)
    (abortR : String → Bool) (sessionKeyRaw : String) (sidP : Option String)
    (ms now : Int) (envKill : Nat → Registry → Registry)
    (henv : ∀ n, EnvKillOnly (envKill n)) :
    (hardStopSessionExecution reg sub resolve clearQ abortR sessionKeyRaw sidP ms now
          envKill).1.rootProcesses.forceKilled
        + (hardStopSessionExecution reg sub resolve clearQ abortR sessionKeyRaw sidP ms now
            envKill).1.subagentForceKilled ≤
      liveCountIn (jsTrim sessionKeyRaw :: childKeysOf sub (jsTrim sessionKeyRaw)) reg
    ∧ (hardStopSessionExecution reg sub resolve clearQ abortR sessionKeyRaw sidP ms now
          envKill).1.subagentRunsTerminated ≤
        ((listDescendantRunsForRequester sub (jsTrim sessionKeyRaw)).filter
          (fun e => e.endedAt == none)).length
    ∧ ∀ e ∈ (hardStopSessionExecution reg sub resolve clearQ abortR sessionKeyRaw sidP ms now
          envKill).2.1,
        (e.scopeKey = jsTrim sessionKeyRaw
          ∨ (childKeysOf sub (jsTrim sessionKeyRaw)).contains e.scopeKey = true) →
        e.live = false := by
  have hroot : (hardStopSessionExecution reg sub resolve clearQ abortR sessionKeyRaw sidP ms
      now envKill).1.rootProcesses =
      (hardStopProcessScope reg (jsTrim sessionKeyRaw) ms (envKill 0)).1 := rfl
  have hsubFk : (hardStopSessionExecution reg sub resolve clearQ abortR sessionKeyRaw sidP ms
      now envKill).1.subagentForceKilled =
      (childLoop resolve abortR ms envKill (childKeysOf sub (jsTrim sessionKeyRaw)) 1
        (hardStopProcessScope reg (jsTrim sessionKeyRaw) ms (envKill 0)).2.1).2.2.2.2.1 := rfl
  have hregF : (hardStopSessionExecution reg sub resolve clearQ abortR sessionKeyRaw sidP ms
      now envKill).2.1 =
      (childLoop resolve abortR ms envKill (childKeysOf sub (jsTrim sessionKeyRaw)) 1
        (hardStopProcessScope reg (jsTrim sessionKeyRaw) ms (envKill 0)).2.1).1 := rfl
  have hterm : (hardStopSessionExecution reg sub resolve clearQ abortR sessionKeyRaw sidP ms
      now envKill).1.subagentRunsTerminated =
      ((listDescendantRunsForRequester sub (jsTrim sessionKeyRaw)).foldl
        (fun (acc : SubRegistry × Nat) entry =>
          if entry.endedAt.isSome then acc
          else
            ((markSubagentRunTerminated acc.1 entry.runId now).1,
              acc.2 + (markSubagentRunTerminated acc.1 entry.runId now).2))
        (sub, 0)).2 := rfl
  have hscope := hardStopProcessScope_props reg (jsTrim sessionKeyRaw) ms (envKill 0) (henv 0)
  have hcl := childLoop_props resolve abortR ms envKill henv
    (childKeysOf sub (jsTrim sessionKeyRaw)) 1
    (hardStopProcessScope reg (jsTrim sessionKeyRaw) ms (envKill 0)).2.1
  refine ⟨?_, ?_, ?_⟩
  · rw [hroot, hsubFk]
    have h1 := hcl.2.2 (fun _ => false)
    rw [cntLive_false] at h1
    have h1' : (childLoop resolve abortR ms envKill (childKeysOf sub (jsTrim sessionKeyRaw)) 1
        (hardStopProcessScope reg (jsTrim sessionKeyRaw) ms (envKill 0)).2.1).2.2.2.2.1 ≤
        cntLive (fun sc => (childKeysOf sub (jsTrim sessionKeyRaw)).contains sc)
          (hardStopProcessScope reg (jsTrim sessionKeyRaw) ms (envKill 0)).2.1 := by
      have hc : cntLive (fun sc => (childKeysOf sub (jsTrim sessionKeyRaw)).contains sc || false)
          (hardStopProcessScope reg (jsTrim sessionKeyRaw) ms (envKill 0)).2.1 =
          cntLive (fun sc => (childKeysOf sub (jsTrim sessionKeyRaw)).contains sc)
            (hardStopProcessScope reg (jsTrim sessionKeyRaw) ms (envKill 0)).2.1 :=
        cntLive_congr _ _ _ (fun sc => by simp)
      omega
    have h2 := hscope.2.2 (fun sc => (childKeysOf sub (jsTrim sessionKeyRaw)).contains sc)
    have h3 : cntLive
        (fun sc => sc == jsTrim sessionKeyRaw
          || (childKeysOf sub (jsTrim sessionKeyRaw)).contains sc) reg =
        liveCountIn (jsTrim sessionKeyRaw :: childKeysOf sub (jsTrim sessionKeyRaw)) reg := by
      have : liveCountIn (jsTrim sessionKeyRaw :: childKeysOf sub (jsTrim sessionKeyRaw)) reg =
          cntLive (fun sc =>
            (jsTrim sessionKeyRaw :: childKeysOf sub (jsTrim sessionKeyRaw)).contains sc) reg :=
        rfl
      rw [this]
      refine cntLive_congr _ _ _ (fun sc => ?_)
      rw [List.contains_cons]
    omega
  · rw [hterm]
    have := subTermFold_le now (listDescendantRunsForRequester sub (jsTrim sessionKeyRaw))
      (sub, 0)
    simpa using this
  · intro e he hcase
    rw [hregF] at he
    rcases hcase with hk | hc
    · refine dead_pred_preserved hcl.1 (fun sc => sc == jsTrim sessionKeyRaw) ?_ e he
        (by simpa using hk)
      intro x hx hxk
      exact hscope.2.1 x hx (by simpa using hxk)
    · exact hcl.2.1 e he hc

/-- Witness for C5 at a concrete configuration: one live root process, one
active sub-agent run with its own live process, identity wait-time
environments. -/
theorem hardStopSessionExecution_c5_witness :
    (hardStopSessionExecution
        [{ eid := 0, pid := some 11, scopeKey := "main", live := true },
          { eid := 1, pid := some 22, scopeKey := "child", live := true }]
        [{ runId := "r1", childSessionKey := "child", requesterSessionKey := "main",
            createdAt := 0, endedAt := none }]
        (fun _ => none) (fun _ _ => { followupCleared := 0, laneCleared := 0 })
        (fun _ => false) "main" none 150 7 (fun _ => id)).1.rootProcesses.forceKilled
        + (hardStopSessionExecution
            [{ eid := 0, pid := some 11, scopeKey := "main", live := true },
              { eid := 1, pid := some 22, scopeKey := "child", live := true }]
            [{ runId := "r1", childSessionKey := "child", requesterSessionKey := "main",
                createdAt := 0, endedAt := none }]
            (fun _ => none) (fun _ _ => { followupCleared := 0, laneCleared := 0 })
            (fun _ => false) "main" none 150 7 (fun _ => id)).1.subagentForceKilled ≤
      liveCountIn ("main" :: childKeysOf
          [{ runId := "r1", childSessionKey := "child", requesterSessionKey := "main",
              createdAt := 0, endedAt := none }] "main")
        [{ eid := 0, pid := some 11, scopeKey := "main", live := true },
          { eid := 1, pid := some 22, scopeKey := "child", live := true }] := by
  have h := hardStopSessionExecution_c5
    [{ eid := 0, pid := some 11, scopeKey := "main", live := true },
      { eid := 1, pid := some 22, scopeKey := "child", live := true }]
    [{ runId := "r1", childSessionKey := "child", requesterSessionKey := "main",
        createdAt := 0, endedAt := none }]
    (fun _ => none) (fun _ _ => { followupCleared := 0, laneCleared := 0 })
    (fun _ => false) "main" none 150 7 (fun _ => id)
    (fun _ _ => regShrinks_refl _)
  have hkey : jsTrim "main" = "main" := by decide
  have := h.1
  rw [hkey] at this
  exact this

end HardStop

namespace Gtd

/-- Appending to a fixed string on the left is injective. -/
theorem strAppend_left_cancel {a b c : String} (h : a ++ b = a ++ c) : b = c := by
  have hd : a.data ++ b.data = a.data ++ c.data := congrArg String.data h
  have h2 := List.append_cancel_left hd
  cases b; cases c; exact congrArg String.mk h2

theorem isPrefixOf_self_append (l m : List Char) : l.isPrefixOf (l ++ m) = true := by
  induction l with
  | nil => simp [List.isPrefixOf]
  | cons c rest ih => simp [List.isPrefixOf, ih]

theorem jsStartsWith_append (ns s : String) : jsStartsWith (ns ++ s) ns = true := by
  unfold jsStartsWith
  rw [String.data_append]
  exact isPrefixOf_self_append ns.data s.data

theorem sortByIdInsert_perm (j : CronJobRecord) (l : List CronJobRecord) :
    List.Perm (sortByIdInsert j l) (j :: l) := by
  induction l with
  | nil => exact List.Perm.refl _
  | cons x rest ih =>
      unfold sortByIdInsert
      by_cases h : j.id ≤ x.id
      · rw [if_pos h]
      · rw [if_neg h]
        exact (List.Perm.cons x ih).trans (List.Perm.swap j x rest)

/-- The reconciler's `toSorted` by id only permutes the duplicate set. -/
theorem sortById_perm (l : List CronJobRecord) : List.Perm (sortById l) l := by
  induction l with
  | nil => exact List.Perm.refl _
  | cons x rest ih =>
      unfold sortById
      show List.Perm (sortByIdInsert x (List.foldr sortByIdInsert [] rest)) (x :: rest)
      exact (sortByIdInsert_perm x _).trans (List.Perm.cons x ih)

/-- Consuming a block of `cron.remove` calls filters the service state by
all the removed ids and leaves the fresh-id supply untouched. -/
theorem apply_removes (rs : List CronJobRecord) (svc : List CronJobRecord)
    (ids : List String) :
    (rs.map (fun r => CronAction.remove r.id)).foldl applyStep (svc, ids)
      = (svc.filter (fun x => rs.all (fun r => x.id != r.id)), ids) := by
  induction rs generalizing svc with
  | nil => simp
  | cons r rest ih =>
      rw [List.map_cons, List.foldl_cons]
      show (rest.map (fun r => CronAction.remove r.id)).foldl applyStep
        (svc.filter (fun j => j.id != r.id), ids) = _
      rw [ih]
      congr 1
      rw [List.filter_filter]
      apply List.filter_congr
      intro x _
      rw [List.all_cons, Bool.and_comm]

/-- The stale-removal `filterMap` of `reconcileActions` is a `map` over the
stale records. -/
theorem filterMap_remove_eq (l : List CronJobRecord) (p : CronJobRecord → Bool) :
    (l.filterMap (fun j => if p j then none else some (CronAction.remove j.id)))
      = (l.filter (fun j => !p j)).map (fun j => CronAction.remove j.id) := by
  induction l with
  | nil => rfl
  | cons x rest ih =>
      cases h : p x <;> simp [List.filterMap_cons, List.filter_cons, h, ih]

theorem filter_of_imp (l : List CronJobRecord) (p q : CronJobRecord → Bool)
    (h : ∀ r, p r = true → q r = true) : (l.filter q).filter p = l.filter p := by
  rw [List.filter_filter]
  apply List.filter_congr
  intro a _
  by_cases hp : p a
  · simp [hp, h a hp]
  · simp [hp]

theorem filter_comm (l : List CronJobRecord) (p q : CronJobRecord → Bool) :
    (l.filter p).filter q = (l.filter q).filter p := by
  rw [List.filter_filter, List.filter_filter]
  apply List.filter_congr
  intro a _
  rw [Bool.and_comm]

theorem flatMap_eq_nil_of (l : List DesiredCronJob) (f : DesiredCronJob → List CronAction)
    (h : ∀ d ∈ l, f d = []) : l.flatMap f = [] := by
  induction l with
  | nil => rfl
  | cons x rest ih =>
      rw [List.flatMap_cons, h x (List.mem_cons_self _ _), List.nil_append]
      exact ih (fun a ha => h a (List.mem_cons_of_mem _ ha))

/-- Effect of consuming one desired job's action batch on a service state
whose same-name records agree with the managed snapshot the batch was built
from: exactly one record with the desired name remains, carrying the
expected fields, records under other names are untouched, and id freshness
is preserved.  Each returned record's id is traceable to the fresh-id
supply or to a managed record with the desired name. -/
theorem applyBatch_props (managed : List CronJobRecord) (ids0 : List String)
    (d : DesiredCronJob) (svc : List CronJobRecord) (ids : List String)
    (S : List CronJobRecord × List String)
    (hS : (desiredBatch managed d).foldl applyStep (svc, ids) = S)
    (hspec : d.spec = expectedSpec d)
    (hsvck : svc.filter (fun r => r.spec.name == d.key)
      = managed.filter (fun r => r.spec.name == d.key))
    (hnodup : (ids ++ svc.map (fun r => r.id)).Nodup)
    (hids : ids ≠ [])
    (hsub : ∀ i ∈ ids, i ∈ ids0) :
    (∃ j, S.1.filter (fun r => r.spec.name == d.key) = [j]
        ∧ j.spec = expectedSpec d
        ∧ (j.id ∈ ids0 ∨ ∃ j0, j0 ∈ managed ∧ j0.spec.name = d.key ∧ j.id = j0.id))
    ∧ (∀ n : String, n ≠ d.key →
        S.1.filter (fun r => r.spec.name == n) = svc.filter (fun r => r.spec.name == n))
    ∧ (S.2 ++ S.1.map (fun r => r.id)).Nodup
    ∧ (S.2 = ids ∨ S.2 = ids.tail) := by
  have hsvcNodup : (svc.map (fun r => r.id)).Nodup := (List.nodup_append.mp hnodup).2.1
  have hdisj : (ids : List String).Disjoint (svc.map (fun r => r.id)) :=
    (List.nodup_append.mp hnodup).2.2
  have hinj : ∀ x ∈ svc, ∀ y ∈ svc, x.id = y.id → x = y := by
    intro x hx y hy hxy
    exact List.inj_on_of_nodup_map hsvcNodup hx hy hxy
  cases hM : sortById (managed.filter (fun r => r.spec.name == d.key)) with
  | nil =>
      have hMnil : managed.filter (fun r => r.spec.name == d.key) = [] := by
        have hp := sortById_perm (managed.filter (fun r => r.spec.name == d.key))
        rw [hM] at hp
        exact hp.symm.eq_nil
      obtain ⟨i, tl, rfl⟩ : ∃ i tl, ids = i :: tl := by
        cases ids with
        | nil => exact absurd rfl hids
        | cons i tl => exact ⟨i, tl, rfl⟩
      have hbatch : desiredBatch managed d = [CronAction.add d] := by
        simp [desiredBatch, hM]
      rw [hbatch] at hS
      have hSval : S = (svc ++ [{ id := i, spec := d.spec }], tl) := by
        rw [← hS]; rfl
      subst hSval
      have hname : d.spec.name = d.key := by rw [hspec]; rfl
      have hsvcnil : svc.filter (fun r => r.spec.name == d.key) = [] := by
        rw [hsvck, hMnil]
      refine ⟨⟨{ id := i, spec := d.spec }, ?_, hspec, Or.inl (hsub i (List.mem_cons_self _ _))⟩,
        ?_, ?_, Or.inr rfl⟩
      · rw [List.filter_append, hsvcnil]
        simp [List.filter_cons, hname]
      · intro n hn
        rw [List.filter_append]
        have : (({ id := i, spec := d.spec } : CronJobRecord).spec.name == n) = false := by
          simp only [hname]
          exact beq_eq_false_iff_ne.mpr (fun h => hn h.symm)
        simp [List.filter_cons, this]
      · rw [List.map_append]
        have hip : List.Perm (tl ++ (svc.map (fun r => r.id) ++ [i]))
            (i :: (tl ++ svc.map (fun r => r.id))) := by
          have h1 : tl ++ (svc.map (fun r => r.id) ++ [i])
              = (tl ++ svc.map (fun r => r.id)) ++ [i] := by
            rw [List.append_assoc]
          rw [h1]
          exact List.perm_append_singleton i _
        have hsrc : (i :: (tl ++ svc.map (fun r => r.id))).Nodup := hnodup
        simpa using hip.symm.nodup hsrc
  | cons j0 restAll =>
      have hperm : List.Perm (j0 :: restAll) (managed.filter (fun r => r.spec.name == d.key)) := by
        have hp := sortById_perm (managed.filter (fun r => r.spec.name == d.key))
        rw [hM] at hp; exact hp
      have hj0M : j0 ∈ managed.filter (fun r => r.spec.name == d.key) :=
        hperm.mem_iff.mp (List.mem_cons_self _ _)
      have hj0name : j0.spec.name = d.key := by
        simpa using List.of_mem_filter hj0M
      have hj0svc : j0 ∈ svc := by
        have : j0 ∈ svc.filter (fun r => r.spec.name == d.key) := by rw [hsvck]; exact hj0M
        exact List.mem_of_mem_filter this
      have hrest : ∀ r ∈ restAll, r ∈ svc ∧ r.spec.name = d.key := by
        intro r hr
        have hrM : r ∈ managed.filter (fun r => r.spec.name == d.key) :=
          hperm.mem_iff.mp (List.mem_cons_of_mem _ hr)
        have hrname : r.spec.name = d.key := by simpa using List.of_mem_filter hrM
        have : r ∈ svc.filter (fun r => r.spec.name == d.key) := by rw [hsvck]; exact hrM
        exact ⟨List.mem_of_mem_filter this, hrname⟩
      have hconsNodup : ((j0 :: restAll).map (fun r => r.id)).Nodup := by
        have h1 : List.Sublist (managed.filter (fun r => r.spec.name == d.key)) svc := by
          rw [← hsvck]; exact List.filter_sublist svc
        have h2 : ((managed.filter (fun r => r.spec.name == d.key)).map (fun r => r.id)).Nodup :=
          (h1.map _).nodup hsvcNodup
        exact ((hperm.map (fun r => r.id)).symm).nodup h2
      have hj0nid : j0.id ∉ restAll.map (fun r => r.id) := (List.nodup_cons.mp hconsNodup).1
      have hpAllj0 : (restAll.all (fun r => j0.id != r.id)) = true := by
        rw [List.all_eq_true]
        intro r hr
        have : j0.id ≠ r.id := fun he => hj0nid (he ▸ List.mem_map_of_mem _ hr)
        simpa [bne_iff_ne] using this
      have hfilterRest : restAll.filter (fun x => restAll.all (fun r => x.id != r.id)) = [] := by
        rw [List.filter_eq_nil_iff]
        intro x hx hall
        rw [List.all_eq_true] at hall
        have hxx := hall x hx
        simp at hxx
      have hkeepName : ∀ (n : String), n ≠ d.key →
          ∀ x ∈ svc.filter (fun r => r.spec.name == n),
          (restAll.all (fun r => x.id != r.id)) = true := by
        intro n hn x hx
        rw [List.all_eq_true]
        intro r hr
        obtain ⟨hrsvc, hrname⟩ := hrest r hr
        have hxsvc := List.mem_of_mem_filter hx
        have hxname : x.spec.name = n := by simpa using List.of_mem_filter hx
        have : x.id ≠ r.id := by
          intro he
          have hxr := hinj x hxsvc r hrsvc he
          rw [hxr, hrname] at hxname
          exact hn hxname.symm
        simpa [bne_iff_ne] using this
      by_cases hmatch : jobMatchesDesired j0 d
      · have hbatch : desiredBatch managed d
            = restAll.map (fun j => CronAction.remove j.id) := by
          simp [desiredBatch, hM, hmatch]
        rw [hbatch, apply_removes] at hS
        have hSval : S = (svc.filter (fun x => restAll.all (fun r => x.id != r.id)), ids) :=
          hS.symm
        subst hSval
        have hj0spec : j0.spec = expectedSpec d := by
          simpa [jobMatchesDesired] using hmatch
        refine ⟨⟨j0, ?_, hj0spec, Or.inr ⟨j0, List.mem_of_mem_filter hj0M, hj0name, rfl⟩⟩,
          ?_, ?_, Or.inl rfl⟩
        · rw [filter_comm, hsvck]
          have h5 : List.Perm
              ((managed.filter (fun r => r.spec.name == d.key)).filter
                (fun x => restAll.all (fun r => x.id != r.id)))
              ((j0 :: restAll).filter (fun x => restAll.all (fun r => x.id != r.id))) :=
            (hperm.filter _).symm
          rw [List.filter_cons, hpAllj0, hfilterRest] at h5
          exact List.perm_singleton.mp (by simpa using h5)
        · intro n hn
          rw [filter_comm]
          exact List.filter_eq_self.mpr (hkeepName n hn)
        · have h1 : List.Sublist
              ((svc.filter (fun x => restAll.all (fun r => x.id != r.id))).map (fun r => r.id))
              (svc.map (fun r => r.id)) := (List.filter_sublist svc).map _
          exact ((h1.append_left ids)).nodup hnodup
      · have hbatch : desiredBatch managed d
            = CronAction.update j0.id (expectedSpec d)
              :: restAll.map (fun j => CronAction.remove j.id) := by
          simp [desiredBatch, hM, hmatch]
        rw [hbatch, List.foldl_cons] at hS
        have hstep : applyStep (svc, ids) (CronAction.update j0.id (expectedSpec d))
            = (svc.map (fun j => if j.id == j0.id then { j with spec := expectedSpec d } else j),
              ids) := rfl
        rw [hstep, apply_removes] at hS
        have hSval : S = ((svc.map (fun j =>
              if j.id == j0.id then { j with spec := expectedSpec d } else j)).filter
            (fun x => restAll.all (fun r => x.id != r.id)), ids) := hS.symm
        subst hSval
        have hu1 : ∀ r : CronJobRecord,
            ((if r.id == j0.id then { r with spec := expectedSpec d } else r) : CronJobRecord).id
              = r.id := by
          intro r
          by_cases h : r.id == j0.id <;> simp [h]
        have hu2 : ∀ r ∈ svc,
            ((if r.id == j0.id then { r with spec := expectedSpec d } else r) :
              CronJobRecord).spec.name = r.spec.name := by
          intro r hr
          by_cases h : r.id == j0.id
          · have he : r = j0 := hinj r hr j0 hj0svc (by simpa using h)
            subst he
            simp [h, expectedSpec, hj0name]
          · simp [h]
        have hfm : ∀ n : String,
            (svc.map (fun j => if j.id == j0.id then { j with spec := expectedSpec d } else j)).filter
              (fun r => r.spec.name == n)
            = (svc.filter (fun r => r.spec.name == n)).map
              (fun j => if j.id == j0.id then { j with spec := expectedSpec d } else j) := by
          intro n
          rw [List.filter_map]
          congr 1
          apply List.filter_congr
          intro r hr
          simp only [Function.comp]
          rw [hu2 r hr]
        have hrestMap : restAll.map
            (fun j => if j.id == j0.id then { j with spec := expectedSpec d } else j) = restAll := by
          have h1 : ∀ r ∈ restAll,
              (if r.id == j0.id then ({ r with spec := expectedSpec d } : CronJobRecord) else r)
                = id r := by
            intro r hr
            have : r.id ≠ j0.id := fun he => hj0nid (he ▸ List.mem_map_of_mem _ hr)
            simp [this, beq_eq_false_iff_ne.mpr this]
          rw [List.map_congr_left h1, List.map_id]
        refine ⟨⟨{ j0 with spec := expectedSpec d }, ?_, rfl,
          Or.inr ⟨j0, List.mem_of_mem_filter hj0M, hj0name, rfl⟩⟩, ?_, ?_, Or.inl rfl⟩
        · rw [filter_comm, hfm, hsvck]
          have hp2 : List.Perm
              (((j0 :: restAll).map
                (fun j => if j.id == j0.id then { j with spec := expectedSpec d } else j)).filter
                (fun x => restAll.all (fun r => x.id != r.id)))
              (((managed.filter (fun r => r.spec.name == d.key)).map
                (fun j => if j.id == j0.id then { j with spec := expectedSpec d } else j)).filter
                (fun x => restAll.all (fun r => x.id != r.id))) :=
            (hperm.map _).filter _
          rw [List.map_cons, hrestMap] at hp2
          have hj0upd : (if j0.id == j0.id then
              ({ j0 with spec := expectedSpec d } : CronJobRecord) else j0)
              = { j0 with spec := expectedSpec d } := by simp
          rw [hj0upd] at hp2
          rw [List.filter_cons] at hp2
          have hpj0' : (restAll.all
              (fun r => ({ j0 with spec := expectedSpec d } : CronJobRecord).id != r.id)) = true := by
            simpa using hpAllj0
          rw [hpj0', hfilterRest] at hp2
          exact (List.perm_singleton.mp (by simpa using hp2.symm))
        · intro n hn
          rw [filter_comm, hfm]
          have hmapid : (svc.filter (fun r => r.spec.name == n)).map
              (fun j => if j.id == j0.id then { j with spec := expectedSpec d } else j)
              = svc.filter (fun r => r.spec.name == n) := by
            have h1 : ∀ x ∈ svc.filter (fun r => r.spec.name == n),
                (if x.id == j0.id then ({ x with spec := expectedSpec d } : CronJobRecord) else x)
                  = id x := by
              intro x hx
              have hxsvc := List.mem_of_mem_filter hx
              have hxname : x.spec.name = n := by simpa using List.of_mem_filter hx
              have : x.id ≠ j0.id := by
                intro he
                have hxj := hinj x hxsvc j0 hj0svc he
                rw [hxj, hj0name] at hxname
                exact hn hxname.symm
              simp [beq_eq_false_iff_ne.mpr this]
            rw [List.map_congr_left h1, List.map_id]
          rw [hmapid]
          exact List.filter_eq_self.mpr (hkeepName n hn)
        · have hmapids : (svc.map (fun j =>
              if j.id == j0.id then { j with spec := expectedSpec d } else j)).map (fun r => r.id)
              = svc.map (fun r => r.id) := by
            rw [List.map_map]
            exact List.map_congr_left (fun r _ => hu1 r)
          have h1 : List.Sublist
              (((svc.map (fun j =>
                if j.id == j0.id then { j with spec := expectedSpec d } else j)).filter
                (fun x => restAll.all (fun r => x.id != r.id))).map (fun r => r.id))
              (svc.map (fun r => r.id)) := by
            rw [← hmapids]
            exact (List.filter_sublist _).map _
          exact (h1.append_left ids).nodup hnodup

end Gtd
namespace Gtd

/-- Folding all desired-job batches over the service: every desired name
ends with exactly one record carrying the expected fields (with id
provenance), non-desired names keep their records, and id freshness is
preserved. -/
theorem applyDesired_props (managed : List CronJobRecord) (ids0 : List String)
    (ds : List DesiredCronJob) :
    ∀ (svc : List CronJobRecord) (ids : List String)
      (S : List CronJobRecord × List String),
      (ds.flatMap (desiredBatch managed)).foldl applyStep (svc, ids) = S →
      (ds.map (fun d => d.key)).Nodup →
      (∀ d ∈ ds, d.spec = expectedSpec d) →
      (∀ d ∈ ds, svc.filter (fun r => r.spec.name == d.key)
        = managed.filter (fun r => r.spec.name == d.key)) →
      (ids ++ svc.map (fun r => r.id)).Nodup →
      ds.length ≤ ids.length →
      (∀ i ∈ ids, i ∈ ids0) →
      (∀ d ∈ ds, ∃ j, S.1.filter (fun r => r.spec.name == d.key) = [j]
          ∧ j.spec = expectedSpec d
          ∧ (j.id ∈ ids0 ∨ ∃ j0, j0 ∈ managed ∧ j0.spec.name = d.key ∧ j.id = j0.id))
      ∧ (∀ n : String, (∀ d ∈ ds, d.key ≠ n) →
          S.1.filter (fun r => r.spec.name == n) = svc.filter (fun r => r.spec.name == n))
      ∧ (S.2 ++ S.1.map (fun r => r.id)).Nodup := by
  induction ds with
  | nil =>
      intro svc ids S hS hkeys hspec hsvck hnodup hlen hsub
      rw [List.flatMap_nil, List.foldl_nil] at hS
      subst hS
      exact ⟨fun d hd => absurd hd (List.not_mem_nil d), fun n _ => rfl, hnodup⟩
  | cons d rest ih =>
      intro svc ids S hS hkeys hspec hsvck hnodup hlen hsub
      rw [List.flatMap_cons, List.foldl_append] at hS
      have hkd : (∀ x ∈ rest, ¬x.key = d.key) ∧ (rest.map (fun d => d.key)).Nodup := by
        simpa using hkeys
      have hkeysRest : (rest.map (fun d => d.key)).Nodup := hkd.2
      have hidsne : ids ≠ [] := by
        intro h
        rw [h] at hlen
        simp at hlen
      obtain ⟨b1, b2, b3, b4⟩ := applyBatch_props managed ids0 d svc ids
        ((desiredBatch managed d).foldl applyStep (svc, ids)) rfl
        (hspec d (List.mem_cons_self _ _)) (hsvck d (List.mem_cons_self _ _)) hnodup hidsne hsub
      have hkeyne : ∀ d' ∈ rest, d'.key ≠ d.key := fun d' hd' => hkd.1 d' hd'
      have hsvck' : ∀ d' ∈ rest,
          ((desiredBatch managed d).foldl applyStep (svc, ids)).1.filter
            (fun r => r.spec.name == d'.key)
          = managed.filter (fun r => r.spec.name == d'.key) := by
        intro d' hd'
        rw [b2 d'.key (hkeyne d' hd')]
        exact hsvck d' (List.mem_cons_of_mem _ hd')
      have hlen' : rest.length ≤ ((desiredBatch managed d).foldl applyStep (svc, ids)).2.length := by
        rcases b4 with h | h
        · rw [h]
          calc rest.length ≤ rest.length + 1 := Nat.le_succ _
            _ = (d :: rest).length := rfl
            _ ≤ ids.length := hlen
        · rw [h, List.length_tail]
          have : (d :: rest).length = rest.length + 1 := rfl
          omega
      have hsub' : ∀ i ∈ ((desiredBatch managed d).foldl applyStep (svc, ids)).2, i ∈ ids0 := by
        intro i hi
        rcases b4 with h | h
        · rw [h] at hi; exact hsub i hi
        · rw [h] at hi; exact hsub i ((List.tail_sublist ids).subset hi)
      have hfold : (rest.flatMap (desiredBatch managed)).foldl applyStep
          (((desiredBatch managed d).foldl applyStep (svc, ids)).1,
            ((desiredBatch managed d).foldl applyStep (svc, ids)).2) = S := by
        rw [← hS]
      obtain ⟨r1, r2, r3⟩ := ih
        ((desiredBatch managed d).foldl applyStep (svc, ids)).1
        ((desiredBatch managed d).foldl applyStep (svc, ids)).2
        S hfold hkeysRest
        (fun d' hd' => hspec d' (List.mem_cons_of_mem _ hd'))
        hsvck' b3 hlen' hsub'
      refine ⟨?_, ?_, r3⟩
      · intro d'' hd''
        rcases List.mem_cons.mp hd'' with h | h
        · subst h
          obtain ⟨j, hj1, hj2, hj3⟩ := b1
          exact ⟨j, by rw [r2 d''.key (hkeyne)]; exact hj1, hj2, hj3⟩
        · exact r1 d'' h
      · intro n hn
        rw [r2 n (fun d' hd' => hn d' (List.mem_cons_of_mem _ hd'))]
        exact b2 n (fun he => hn d (List.mem_cons_self _ _) he.symm)

end Gtd
namespace Gtd

/-- Convergence of one reconciliation pass (the engine behind C2): if the
desired keys are pairwise distinct, live in the managed namespace and
carry their own expected fields, the service's job ids are distinct and
the fresh-id supply is distinct from them and large enough, then a second
pass over the service state produced by applying the first pass's calls
issues no calls at all. -/
theorem reconcile_converges (desired : List DesiredCronJob) (existing : List CronJobRecord)
    (ns : String) (ids : List String)
    (hkeys : (desired.map (fun d => d.key)).Nodup)
    (hns : ∀ d ∈ desired, jsStartsWith d.key ns = true)
    (hspec : ∀ d ∈ desired, d.spec = expectedSpec d)
    (hfresh : (ids ++ existing.map (fun r => r.id)).Nodup)
    (hlen : desired.length ≤ ids.length) :
    reconcileActions desired
      (applyActions (reconcileActions desired existing ns) existing ids) ns = [] := by
  have hexN : (existing.map (fun r => r.id)).Nodup := (List.nodup_append.mp hfresh).2.1
  have hdisj : (ids : List String).Disjoint (existing.map (fun r => r.id)) :=
    (List.nodup_append.mp hfresh).2.2
  have hinjE : ∀ x ∈ existing, ∀ y ∈ existing, x.id = y.id → x = y := by
    intro x hx y hy hxy
    exact List.inj_on_of_nodup_map hexN hx hy hxy
  have hsvck0 : ∀ d ∈ desired, existing.filter (fun r => r.spec.name == d.key)
      = (existing.filter (fun j => jsStartsWith j.spec.name ns)).filter
        (fun r => r.spec.name == d.key) := by
    intro d hd
    refine (filter_of_imp existing _ _ ?_).symm
    intro r h
    have hr : r.spec.name = d.key := by simpa using h
    rw [hr]
    exact hns d hd
  have hacts : reconcileActions desired existing ns
      = (desired.flatMap (desiredBatch (existing.filter (fun j => jsStartsWith j.spec.name ns))))
        ++ ((existing.filter (fun j => jsStartsWith j.spec.name ns)).filter
              (fun j => !(desired.any (fun d => d.key == j.spec.name)))).map
            (fun j => CronAction.remove j.id) := by
    simp only [reconcileActions]
    rw [filterMap_remove_eq]
  rcases hSD : (desired.flatMap
      (desiredBatch (existing.filter (fun j => jsStartsWith j.spec.name ns)))).foldl
      applyStep (existing, ids) with ⟨svcD, idsD⟩
  obtain ⟨T1, T2, T3⟩ := applyDesired_props
    (existing.filter (fun j => jsStartsWith j.spec.name ns)) ids desired existing ids
    (svcD, idsD) hSD hkeys hspec hsvck0 hfresh hlen (fun i hi => hi)
  have happly : applyActions (reconcileActions desired existing ns) existing ids
      = svcD.filter (fun x =>
          ((existing.filter (fun j => jsStartsWith j.spec.name ns)).filter
            (fun j => !(desired.any (fun d => d.key == j.spec.name)))).all
          (fun r => x.id != r.id)) := by
    unfold applyActions
    rw [hacts, List.foldl_append, hSD, apply_removes]
  rw [happly]
  have hstale_mem : ∀ r ∈ (existing.filter (fun j => jsStartsWith j.spec.name ns)).filter
      (fun j => !(desired.any (fun d => d.key == j.spec.name))),
      r ∈ existing ∧ (desired.any (fun d => d.key == r.spec.name)) = false := by
    intro r hr
    have h1 := List.mem_of_mem_filter hr
    have h2 := List.of_mem_filter hr
    exact ⟨List.mem_of_mem_filter h1, by simpa using h2⟩
  have hpart1 : desired.flatMap (desiredBatch
      ((svcD.filter (fun x =>
          ((existing.filter (fun j => jsStartsWith j.spec.name ns)).filter
            (fun j => !(desired.any (fun d => d.key == j.spec.name)))).all
          (fun r => x.id != r.id))).filter
        (fun j => jsStartsWith j.spec.name ns))) = [] := by
    apply flatMap_eq_nil_of
    intro d hd
    obtain ⟨j, hj, hjspec, hjprov⟩ := T1 d hd
    have hstale_ne : ∀ r ∈ (existing.filter (fun j => jsStartsWith j.spec.name ns)).filter
        (fun j => !(desired.any (fun d => d.key == j.spec.name))), j.id ≠ r.id := by
      intro r hr
      obtain ⟨hrex, hrany⟩ := hstale_mem r hr
      rcases hjprov with hjid | ⟨j0, hj0man, hj0name, hjid⟩
      · intro he
        exact hdisj hjid (he ▸ List.mem_map_of_mem _ hrex)
      · intro he
        have hj0ex : j0 ∈ existing := List.mem_of_mem_filter hj0man
        have hj0r : j0 = r := hinjE j0 hj0ex r hrex (hjid ▸ he)
        have hrname : r.spec.name = d.key := hj0r ▸ hj0name
        have : (desired.any (fun d' => d'.key == r.spec.name)) = true := by
          rw [List.any_eq_true]
          exact ⟨d, hd, by simp [hrname]⟩
        rw [this] at hrany
        exact Bool.noConfusion hrany
    have hpallj : (((existing.filter (fun j => jsStartsWith j.spec.name ns)).filter
        (fun j => !(desired.any (fun d => d.key == j.spec.name)))).all
        (fun r => j.id != r.id)) = true := by
      rw [List.all_eq_true]
      intro r hr
      simpa [bne_iff_ne] using hstale_ne r hr
    have hfj : (svcD.filter (fun x =>
        ((existing.filter (fun j => jsStartsWith j.spec.name ns)).filter
          (fun j => !(desired.any (fun d => d.key == j.spec.name)))).all
        (fun r => x.id != r.id))).filter (fun r => r.spec.name == d.key) = [j] := by
      rw [filter_comm, hj, List.filter_cons, hpallj]
      rfl
    have hm2 : ((svcD.filter (fun x =>
        ((existing.filter (fun j => jsStartsWith j.spec.name ns)).filter
          (fun j => !(desired.any (fun d => d.key == j.spec.name)))).all
        (fun r => x.id != r.id))).filter
        (fun j => jsStartsWith j.spec.name ns)).filter (fun r => r.spec.name == d.key) = [j] := by
      rw [filter_of_imp _ _ _ ?_]
      · exact hfj
      · intro r h
        have hr : r.spec.name = d.key := by simpa using h
        rw [hr]
        exact hns d hd
    have hmatch : jobMatchesDesired j d = true := by
      simp [jobMatchesDesired, hjspec]
    simp only [desiredBatch]
    rw [hm2]
    simp [sortById, sortByIdInsert, hmatch]
  have hpart2 : ((svcD.filter (fun x =>
      ((existing.filter (fun j => jsStartsWith j.spec.name ns)).filter
        (fun j => !(desired.any (fun d => d.key == j.spec.name)))).all
      (fun r => x.id != r.id))).filter
      (fun j => jsStartsWith j.spec.name ns)).filterMap (fun j =>
        if desired.any (fun d => d.key == j.spec.name) then none
        else some (CronAction.remove j.id)) = [] := by
    rw [List.filterMap_eq_nil_iff]
    intro x hx
    by_cases hany : desired.any (fun d => d.key == x.spec.name)
    · simp [hany]
    · exfalso
      have hany' : (desired.any (fun d => d.key == x.spec.name)) = false :=
        Bool.not_eq_true _ ▸ (by simpa using hany)
      have hxstarts : jsStartsWith x.spec.name ns = true := by
        simpa using (List.mem_filter.mp hx).2
      have hxF := List.mem_of_mem_filter hx
      have hxD : x ∈ svcD := List.mem_of_mem_filter hxF
      have hxpall := List.of_mem_filter hxF
      have hnkey : ∀ d ∈ desired, d.key ≠ x.spec.name := by
        intro d hd he
        have := (List.any_eq_false.mp hany') d hd
        simp [he] at this
      have hxDn : x ∈ svcD.filter (fun r => r.spec.name == x.spec.name) :=
        List.mem_filter.mpr ⟨hxD, by simp⟩
      rw [T2 x.spec.name hnkey] at hxDn
      have hxex : x ∈ existing := List.mem_of_mem_filter hxDn
      have hxman : x ∈ existing.filter (fun j => jsStartsWith j.spec.name ns) :=
        List.mem_filter.mpr ⟨hxex, hxstarts⟩
      have hxstale : x ∈ (existing.filter (fun j => jsStartsWith j.spec.name ns)).filter
          (fun j => !(desired.any (fun d => d.key == j.spec.name))) :=
        List.mem_filter.mpr ⟨hxman, by rw [hany']; rfl⟩
      rw [List.all_eq_true] at hxpall
      have := hxpall x hxstale
      simp at this
  simp only [reconcileActions]
  rw [hpart1, hpart2]
  rfl

end Gtd
namespace Gtd

theorem buildBaseCronJob_key (k a : String) (s : CronSchedule) (del : Bool) :
    (buildBaseCronJob k a s del).key = k := rfl

theorem buildBaseCronJob_spec (k a : String) (s : CronSchedule) (del : Bool) :
    (buildBaseCronJob k a s del).spec = expectedSpec (buildBaseCronJob k a s del) := rfl

theorem buildJobKey_eq_ns_append (a s : String) :
    buildJobKey a s = managedNsOf a ++ s := rfl

theorem buildJobKey_inj (a : String) {s t : String} (h : buildJobKey a s = buildJobKey a t) :
    s = t := by
  have h' : managedNsOf a ++ s = managedNsOf a ++ t := h
  exact strAppend_left_cancel h'

/-- A string whose first eight characters differ from "waiting:" is not of
the form "waiting:" ++ id. -/
theorem ne_waiting_append (s id : String) (h8 : ¬ s.data.take 8 = "waiting:".data) :
    ¬ s = "waiting:" ++ id := by
  intro he
  apply h8
  rw [he]
  show ("waiting:".data ++ id.data).take 8 = "waiting:".data
  exact List.take_left "waiting:".data id.data

theorem buildDesired_spec (a : String) (w : List WaitingItem) (tz : String)
    (cfg : GtdSchedulerConfig) (now : Int) :
    ∀ d ∈ buildDesiredCronJobs a w tz cfg now, d.spec = expectedSpec d := by
  intro d hd
  simp only [buildDesiredCronJobs, List.mem_append, List.mem_cons, List.not_mem_nil,
    or_false, List.mem_map] at hd
  rcases hd with (rfl | rfl | rfl | rfl) | ⟨x, _, rfl⟩ <;> rfl

theorem buildDesired_startsWith (a : String) (w : List WaitingItem) (tz : String)
    (cfg : GtdSchedulerConfig) (now : Int) :
    ∀ d ∈ buildDesiredCronJobs a w tz cfg now,
      jsStartsWith d.key (managedNsOf a) = true := by
  intro d hd
  simp only [buildDesiredCronJobs, List.mem_append, List.mem_cons, List.not_mem_nil,
    or_false, List.mem_map] at hd
  rcases hd with (rfl | rfl | rfl | rfl) | ⟨x, _, rfl⟩ <;>
    exact jsStartsWith_append (managedNsOf a) _

theorem buildDesired_keys (a : String) (w : List WaitingItem) (tz : String)
    (cfg : GtdSchedulerConfig) (now : Int) :
    (buildDesiredCronJobs a w tz cfg now).map (fun d => d.key)
      = [buildJobKey a "daily-review", buildJobKey a "weekly-review",
          buildJobKey a "horizons-review", buildJobKey a "calendar-sync"]
        ++ ((w.filter (fun item => item.status == "active")).map
            (fun item => item.id)).map (fun i => buildJobKey a ("waiting:" ++ i)) := by
  simp only [buildDesiredCronJobs, List.map_append, List.map_cons, List.map_nil,
    List.map_map, buildBaseCronJob_key]
  rfl

/-- The desired keys are pairwise distinct whenever the active waiting
items have pairwise distinct ids. -/
theorem buildDesired_keys_nodup (a : String) (w : List WaitingItem) (tz : String)
    (cfg : GtdSchedulerConfig) (now : Int)
    (hw : ((w.filter (fun item => item.status == "active")).map (fun item => item.id)).Nodup) :
    ((buildDesiredCronJobs a w tz cfg now).map (fun d => d.key)).Nodup := by
  rw [buildDesired_keys, List.nodup_append]
  have hbk : ∀ s t : String, s ≠ t → buildJobKey a s ≠ buildJobKey a t :=
    fun s t h he => h (buildJobKey_inj a he)
  refine ⟨?_, ?_, ?_⟩
  · simp only [List.nodup_cons, List.mem_cons, List.not_mem_nil, List.nodup_nil, or_false,
      not_or, and_true]
    exact ⟨⟨hbk "daily-review" "weekly-review" (by decide),
        hbk "daily-review" "horizons-review" (by decide),
        hbk "daily-review" "calendar-sync" (by decide)⟩,
      ⟨hbk "weekly-review" "horizons-review" (by decide),
        hbk "weekly-review" "calendar-sync" (by decide)⟩,
      hbk "horizons-review" "calendar-sync" (by decide), not_false⟩
  · apply hw.map
    intro i j h
    have h1 : ("waiting:" : String) ++ i = "waiting:" ++ j := buildJobKey_inj a h
    exact strAppend_left_cancel h1
  · intro k hk hkB
    rw [List.mem_map] at hkB
    obtain ⟨i, _, hik⟩ := hkB
    have hk4 : ∃ s, (s = "daily-review" ∨ s = "weekly-review" ∨ s = "horizons-review"
        ∨ s = "calendar-sync") ∧ k = buildJobKey a s := by
      simp only [List.mem_cons, List.not_mem_nil, or_false] at hk
      rcases hk with rfl | rfl | rfl | rfl
      · exact ⟨"daily-review", Or.inl rfl, rfl⟩
      · exact ⟨"weekly-review", Or.inr (Or.inl rfl), rfl⟩
      · exact ⟨"horizons-review", Or.inr (Or.inr (Or.inl rfl)), rfl⟩
      · exact ⟨"calendar-sync", Or.inr (Or.inr (Or.inr rfl)), rfl⟩
    obtain ⟨s, hs, rfl⟩ := hk4
    have hsw : s = "waiting:" ++ i := buildJobKey_inj a hik.symm
    rcases hs with rfl | rfl | rfl | rfl <;>
      exact ne_waiting_append _ i (by decide) hsw

end Gtd
namespace Gtd

/-- Counterexample to C2: running the reconciliation twice in immediate
succession with no GTD-state or config change, the external cron service
reflecting the first run's mutations, and the clock advanced by one
millisecond between the runs (Date.now() always moves between two real
invocations), the second run still issues a call: the calendar-sync job's
every-schedule anchor is rebuilt as Date.now() + 60000, which no longer
matches the stored job, so a cron.update is issued. -/
theorem reconcileAgentJobs_c2_cex :
    reconcileActions
      (buildDesiredCronJobs "main" [] "UTC" ⟨9, 0, false, 17, 0, 5, 10, 0, 1, 30⟩ 1)
      (applyActions
        (reconcileActions
          (buildDesiredCronJobs "main" [] "UTC" ⟨9, 0, false, 17, 0, 5, 10, 0, 1, 30⟩ 0)
          [] (managedNsOf "main"))
        [] ["a", "b", "c", "d"])
      (managedNsOf "main") ≠ [] := by decide

/-- C2 as amended: reconciliation is convergent when the clock is frozen
between the two runs.  For every agent, timezone, config and GTD state
whose active waiting items have pairwise distinct ids, with the external
cron service holding pairwise distinct job ids and assigning fresh
distinct ids (enough for the first run's adds), a second
reconcileAgentJobs pass evaluated at the same Date.now() value as the
first, against the service state left by the first, issues zero cron.add,
cron.update and cron.remove calls.  With a live clock the calendar-sync
anchor breaks this (see the counterexample). -/
theorem reconcileAgentJobs_c2_amended (agentId tz : String) (cfg : GtdSchedulerConfig)
    (waitingFor : List WaitingItem) (now : Int) (existing : List CronJobRecord)
    (ids : List String)
    (hw : ((waitingFor.filter (fun item => item.status == "active")).map
      (fun item => item.id)).Nodup)
    (hfresh : (ids ++ existing.map (fun r => r.id)).Nodup)
    (hlen : (buildDesiredCronJobs agentId waitingFor tz cfg now).length ≤ ids.length) :
    reconcileActions (buildDesiredCronJobs agentId waitingFor tz cfg now)
      (applyActions
        (reconcileActions (buildDesiredCronJobs agentId waitingFor tz cfg now) existing
          (managedNsOf agentId))
        existing ids)
      (managedNsOf agentId) = [] :=
  reconcile_converges _ existing (managedNsOf agentId) ids
    (buildDesired_keys_nodup agentId waitingFor tz cfg now hw)
    (buildDesired_startsWith agentId waitingFor tz cfg now)
    (buildDesired_spec agentId waitingFor tz cfg now)
    hfresh hlen

/-- Closed instance of the amended C2 theorem at a concrete config, empty
state and four fresh ids. -/
theorem reconcileAgentJobs_c2_amended_witness :
    reconcileActions
      (buildDesiredCronJobs "main" [] "UTC" ⟨9, 0, false, 17, 0, 5, 10, 0, 1, 30⟩ 0)
      (applyActions
        (reconcileActions
          (buildDesiredCronJobs "main" [] "UTC" ⟨9, 0, false, 17, 0, 5, 10, 0, 1, 30⟩ 0)
          [] (managedNsOf "main"))
        [] ["a", "b", "c", "d"])
      (managedNsOf "main") = [] :=
  reconcileAgentJobs_c2_amended "main" "UTC" ⟨9, 0, false, 17, 0, 5, 10, 0, 1, 30⟩ [] 0 []
    ["a", "b", "c", "d"] (by decide) (by decide) (by decide)

end Gtd
